import Mathlib

/-!
Verification of the geometric layout validation engine in
`src/utils/geometry.ts` (spatial grid, rotated-rectangle corners,
separating-axis intersection, rule table, validation pipeline).

Modelling conventions.
* Plane coordinates are exact rationals; the source uses IEEE doubles.
* The source rotates corners with Math.cos and Math.sin of the rotation
  converted to radians.  The embedding takes the trigonometric evaluation
  as an explicit parameter `trig : ℚ → ℚ × ℚ`, where `trig d` stands for
  the pair (cos (d·π/180), sin (d·π/180)).  Theorems quantified over
  `trig` hold in particular for the rational values the floating-point
  implementation actually produces; concrete evaluations use
  `rightAngleTrig`, which is exact at the angles they involve.
* The source field `rotation` (optional, defaulting to 0) is modelled by
  the always-present field `rot`.
* JavaScript `Set` objects deduplicate by object reference; the embedding
  deduplicates by value.  The two agree whenever element ids are unique,
  which is the regime of every statement below that depends on it.
* The memoization cache of `getCorners` is semantically transparent
  (keyed by the exact field tuple) and is not modelled.
* The element-type enumeration lives in `src/types.ts`, which is not part
  of the sources; its constructor names are taken from the uses in
  `src/utils/geometry.ts` and the renderer, and `typeName` is modelled
  from the spec (the closed facility-kind enumeration of the data model).
-/

set_option allowUnsafeReducibility true in
attribute [semireducible] Rat.add Rat.mul Rat.sub Rat.inv

structure Point where
  x : ℚ
  y : ℚ
deriving DecidableEq, Repr

inductive ElementType where
  | WALL
  | GROUND
  | ROAD
  | RAMP
  | PARKING_SPACE
  | PILLAR
  | ENTRANCE
  | EXIT
  | STAIRCASE
  | ELEVATOR
  | CHARGING_STATION
  | GUIDANCE_SIGN
  | SAFE_EXIT
  | SPEED_BUMP
  | FIRE_EXTINGUISHER
  | LANE_LINE
  | CONVEX_MIRROR
  | SIDEWALK
deriving DecidableEq, Repr

/-- Modelled from the spec: the string value of each member of the closed
`ElementType` enumeration in the missing `src/types.ts` (facility kinds of
the data model; used only inside violation message strings). -/
def typeName : ElementType → String
  | .WALL => "wall"
  | .GROUND => "ground"
  | .ROAD => "driving_lane"
  | .RAMP => "slope"
  | .PARKING_SPACE => "parking_space"
  | .PILLAR => "pillar"
  | .ENTRANCE => "entrance"
  | .EXIT => "exit"
  | .STAIRCASE => "staircase"
  | .ELEVATOR => "elevator"
  | .CHARGING_STATION => "charging_station"
  | .GUIDANCE_SIGN => "guidance_sign"
  | .SAFE_EXIT => "safe_exit"
  | .SPEED_BUMP => "deceleration_zone"
  | .FIRE_EXTINGUISHER => "fire_extinguisher"
  | .LANE_LINE => "lane_line"
  | .CONVEX_MIRROR => "convex_mirror"
  | .SIDEWALK => "pedestrian_path"

structure LayoutElement where
  id : String
  type : ElementType
  x : ℚ
  y : ℚ
  width : ℚ
  height : ℚ
  rot : ℚ
deriving DecidableEq, Repr

structure ParkingLayout where
  width : ℚ
  height : ℚ
  elements : Option (List LayoutElement)
deriving DecidableEq, Repr

inductive ViolationType where
  | out_of_bounds
  | overlap
  | placement_error
  | connectivity_error
deriving DecidableEq, Repr

structure ConstraintViolation where
  elementId : String
  targetId : Option String
  type : ViolationType
  message : String
deriving DecidableEq, Repr

/-- JavaScript string comparison is code-unit lexicographic; it is
modelled by the lexicographic order on the character lists of the ids
(the two agree on the characters the layouts use). -/
def strLt (a b : String) : Bool := decide (a.data < b.data)

/-! ## Spatial grid (`SpatialGrid`, cell size 100 in `validateLayout`) -/

/-- The integers from `lo` to `hi` inclusive (empty when `hi < lo`). -/
def intRange (lo hi : ℤ) : List ℤ :=
  (List.range (hi + 1 - lo).toNat).map (fun (i : ℕ) => lo + (i : ℤ))

/-- `SpatialGrid.getKeysForElement`: all cell keys the unrotated bounding
box of the element touches, column-major as in the source loops. -/
def getKeysForElement (cs : ℚ) (el : LayoutElement) : List (ℤ × ℤ) :=
  let startX := ⌊el.x / cs⌋
  let endX := ⌊(el.x + el.width) / cs⌋
  let startY := ⌊el.y / cs⌋
  let endY := ⌊(el.y + el.height) / cs⌋
  (intRange startX endX).flatMap (fun kx => (intRange startY endY).map (fun ky => (kx, ky)))

/-- Accumulator loop behind `dedupFirst`. -/
def dedupAux {α : Type} [DecidableEq α] (acc : List α) : List α → List α
  | [] => acc
  | a :: l => if a ∈ acc then dedupAux acc l else dedupAux (acc ++ [a]) l

/-- First-occurrence deduplication, the iteration order of a JavaScript
`Set` filled by insertion. -/
def dedupFirst {α : Type} [DecidableEq α] (l : List α) : List α :=
  dedupAux [] l

/-- `SpatialGrid.getPotentialCollisions`: for each key of `el`, the cell
bucket holds the elements whose keys cover it, in insertion order; the
buckets are concatenated, elements with the id of `el` are dropped, and
the result is deduplicated in first-insertion order. -/
def getPotentialCollisions (cs : ℚ) (els : List LayoutElement) (el : LayoutElement) :
    List LayoutElement :=
  let keys := getKeysForElement cs el
  dedupFirst
    ((keys.flatMap (fun k => els.filter (fun e => decide (k ∈ getKeysForElement cs e)))).filter
      (fun c => c.id ≠ el.id))

/-! ## Geometry kernel -/

/-- `getCorners`: the four rectangle corners rotated by `rot` degrees
about the center, via the supplied trigonometric evaluation. -/
def getCorners (trig : ℚ → ℚ × ℚ) (el : LayoutElement) : List Point :=
  let c := (trig el.rot).1
  let s := (trig el.rot).2
  let cx := el.x + el.width / 2
  let cy := el.y + el.height / 2
  [Point.mk el.x el.y, ⟨el.x + el.width, el.y⟩, ⟨el.x + el.width, el.y + el.height⟩,
      ⟨el.x, el.y + el.height⟩].map
    (fun p => ⟨cx + (p.x - cx) * c - (p.y - cy) * s, cy + (p.x - cx) * s + (p.y - cy) * c⟩)

/-- Projection interval of a polygon onto the axis `(nx, ny)`: the source
folds min and max over all vertices (starting from ±∞; for the nonempty
lists that reach it this equals folding from the first projection). -/
def projectPoly (nx ny : ℚ) (pts : List Point) : ℚ × ℚ :=
  match pts.map (fun p => nx * p.x + ny * p.y) with
  | [] => (0, 0)
  | q :: qs => (qs.foldl min q, qs.foldl max q)

/-- The consecutive vertex pairs (with wraparound) whose normals the
separating-axis loop ranges over. -/
def edgePairs (poly : List Point) : List (Point × Point) :=
  poly.zip (poly.rotate 1)

/-- Disjointness of the two projection intervals on axis `(nx, ny)`. -/
def separatesOn (nx ny : ℚ) (a b : List Point) : Bool :=
  let pa := projectPoly nx ny a
  let pb := projectPoly nx ny b
  decide (pa.2 < pb.1 ∨ pb.2 < pa.1)

/-- One iteration of the separating-axis loop: the edge normal, the
zero-normal skip, and the interval-disjointness test. -/
def edgeSeparates (a b : List Point) (e : Point × Point) : Bool :=
  let nx := e.2.y - e.1.y
  let ny := e.1.x - e.2.x
  if nx = 0 ∧ ny = 0 then false else separatesOn nx ny a b

/-- `isPolygonsIntersecting`: the separating-axis test of the source. -/
def isPolygonsIntersecting (a b : List Point) : Bool :=
  if a.length < 3 ∨ b.length < 3 then false
  else !((edgePairs a ++ edgePairs b).any (edgeSeparates a b))

def EPSILON : ℚ := 1 / 2

/-- `isOverlapping`: padded AABB depth test with the EPSILON tolerance,
then the exact polygon test on the unpadded shapes. -/
def isOverlapping (trig : ℚ → ℚ × ℚ) (road item : LayoutElement) (pad : ℚ) : Bool :=
  let overlapX := min (road.x + road.width + pad) (item.x + item.width) - max (road.x - pad) item.x
  let overlapY :=
    min (road.y + road.height + pad) (item.y + item.height) - max (road.y - pad) item.y
  if overlapX < EPSILON ∨ overlapY < EPSILON then false
  else isPolygonsIntersecting (getCorners trig road) (getCorners trig item)

/-- `isTouching`: exactly the polygon intersection test. -/
def isTouching (trig : ℚ → ℚ × ℚ) (a b : LayoutElement) : Bool :=
  isPolygonsIntersecting (getCorners trig a) (getCorners trig b)

structure Box where
  x : ℚ
  y : ℚ
  width : ℚ
  height : ℚ
deriving DecidableEq, Repr

/-- `getIntersectionBox`: axis-aligned overlap of the unrotated boxes,
`none` unless both extents are strictly positive. -/
def getIntersectionBox (r1 r2 : LayoutElement) : Option Box :=
  let x1 := max r1.x r2.x
  let y1 := max r1.y r2.y
  let x2 := min (r1.x + r1.width) (r2.x + r2.width)
  let y2 := min (r1.y + r1.height) (r2.y + r2.height)
  if x1 < x2 ∧ y1 < y2 then some ⟨x1, y1, x2 - x1, y2 - y1⟩ else none

/-! ## Validation pipeline -/

def solidTypes : List ElementType :=
  [.PARKING_SPACE, .PILLAR, .WALL, .STAIRCASE, .ELEVATOR, .ROAD, .RAMP, .CHARGING_STATION,
    .ENTRANCE, .EXIT]

def isSolid (t : ElementType) : Bool := solidTypes.contains t

/-- Pass 1 check for one element: the quick unrotated-bbox test, then the
exact rotated-corner test. -/
def boundsCheck (trig : ℚ → ℚ × ℚ) (W H : ℚ) (el : LayoutElement) :
    Option ConstraintViolation :=
  if el.x < 0 ∨ el.x + el.width > W ∨ el.y < 0 ∨ el.y + el.height > H then
    if (getCorners trig el).any (fun p => decide (p.x < 0 ∨ p.x > W ∨ p.y < 0 ∨ p.y > H)) then
      some ⟨el.id, none, .out_of_bounds, "Element is outside boundary."⟩
    else none
  else none

def boundsPass (trig : ℚ → ℚ × ℚ) (W H : ℚ) (els : List LayoutElement) :
    List ConstraintViolation :=
  els.filterMap (boundsCheck trig W H)

/-- The permitted-overlap clauses of the rule table (parking space over
ground or charging station, wall-wall, road-road, pillar-wall). -/
def permittedOverlap (el1 el2 : LayoutElement) : Bool :=
  decide ((el1.type = .PARKING_SPACE ∧ (el2.type = .GROUND ∨ el2.type = .CHARGING_STATION)) ∨
    (el2.type = .PARKING_SPACE ∧ (el1.type = .GROUND ∨ el1.type = .CHARGING_STATION)) ∨
    (el1.type = .WALL ∧ el2.type = .WALL) ∨
    (el1.type = .ROAD ∧ el2.type = .ROAD) ∨
    (el1.type = .PILLAR ∧ el2.type = .WALL) ∨
    (el2.type = .PILLAR ∧ el1.type = .WALL))

def isRampType (t : ElementType) : Bool := decide (t = .RAMP)

def isConnectorType (t : ElementType) : Bool :=
  decide (t = .ROAD ∨ t = .ENTRANCE ∨ t = .EXIT)

def isConnectorPair (t1 t2 : ElementType) : Bool :=
  (isRampType t1 && isConnectorType t2) || (isRampType t2 && isConnectorType t1)

/-- The connector-tolerance clause: a ramp against a road, entrance or
exit whose intersection box is at most 2 units deep in either dimension. -/
def connectorExempt (el1 el2 : LayoutElement) : Bool :=
  isConnectorPair el1.type el2.type &&
    match getIntersectionBox el1 el2 with
    | some box => decide (box.width ≤ 2 ∨ box.height ≤ 2)
    | none => false

/-- The bounding-circle distance pre-filter of the overlap pass
(top-left-corner distance against the sum of the larger extents). -/
def distFilter (el1 el2 : LayoutElement) : Bool :=
  let r1 := max el1.width el1.height
  let r2 := max el2.width el2.height
  decide ((el1.x - el2.x) * (el1.x - el2.x) + (el1.y - el2.y) * (el1.y - el2.y) <
    (r1 + r2) * (r1 + r2))

/-- One candidate step of the overlap pass: the id ordering guard, the
solid filter, the rule table, the distance pre-filter and the exact test. -/
def overlapCheck (trig : ℚ → ℚ × ℚ) (el1 el2 : LayoutElement) :
    Option ConstraintViolation :=
  if !(strLt el1.id el2.id) then none
  else if !(isSolid el2.type) then none
  else if permittedOverlap el1 el2 then none
  else if connectorExempt el1 el2 then none
  else if distFilter el1 el2 then
    if isPolygonsIntersecting (getCorners trig el1) (getCorners trig el2) then
      some ⟨el1.id, some el2.id, .overlap,
        typeName el1.type ++ " overlaps with " ++ typeName el2.type⟩
    else none
  else none

def overlapPass (trig : ℚ → ℚ × ℚ) (els : List LayoutElement) : List ConstraintViolation :=
  (els.filter (fun e => isSolid e.type)).flatMap
    (fun el1 => (getPotentialCollisions 100 els el1).filterMap (overlapCheck trig el1))

def itemsOnRoad : List ElementType :=
  [.GUIDANCE_SIGN, .SIDEWALK, .SPEED_BUMP, .LANE_LINE, .CONVEX_MIRROR]

def itemsNotOnRoad : List ElementType :=
  [.STAIRCASE, .ELEVATOR, .SAFE_EXIT, .FIRE_EXTINGUISHER, .ENTRANCE, .EXIT, .RAMP]

/-- Pass 3 for one element: the must-be-on-road check (padding 2) then
the must-be-off-road check (padding 0, sidewalks exempt). -/
def placementCheck (trig : ℚ → ℚ × ℚ) (els : List LayoutElement) (item : LayoutElement) :
    List ConstraintViolation :=
  let nearbyRoads := (getPotentialCollisions 100 els item).filter (fun c => decide (c.type = .ROAD))
  (if itemsOnRoad.contains item.type ∧
      !(nearbyRoads.any (fun road => isOverlapping trig road item 2)) then
    [⟨item.id, none, .placement_error, typeName item.type ++ " must be placed on a Driving Lane."⟩]
  else []) ++
  (if itemsNotOnRoad.contains item.type ∧
      nearbyRoads.any (fun road => isOverlapping trig road item 0) ∧ item.type ≠ .SIDEWALK then
    [⟨item.id, none, .placement_error, typeName item.type ++ " must NOT overlap a Driving Lane."⟩]
  else [])

def placementPass (trig : ℚ → ℚ × ℚ) (els : List LayoutElement) : List ConstraintViolation :=
  els.flatMap (placementCheck trig els)

/-- Pass 4 (a): every entrance or exit must touch a nearby ramp. -/
def gateCheck (trig : ℚ → ℚ × ℚ) (els : List LayoutElement) (gate : LayoutElement) :
    Option ConstraintViolation :=
  let nearbyRamps := (getPotentialCollisions 100 els gate).filter (fun c => decide (c.type = .RAMP))
  if !(nearbyRamps.any (fun r => isTouching trig r gate)) then
    some ⟨gate.id, none, .connectivity_error, typeName gate.type ++ " must be adjacent to a Ramp."⟩
  else none

def gatePass (trig : ℚ → ℚ × ℚ) (els : List LayoutElement) : List ConstraintViolation :=
  (els.filter (fun e => decide (e.type = .ENTRANCE ∨ e.type = .EXIT))).filterMap
    (gateCheck trig els)

/-- Pass 4 (b): every ramp must touch a nearby road. -/
def rampCheck (trig : ℚ → ℚ × ℚ) (els : List LayoutElement) (ramp : LayoutElement) :
    Option ConstraintViolation :=
  let nearbyRoads := (getPotentialCollisions 100 els ramp).filter (fun c => decide (c.type = .ROAD))
  if !(nearbyRoads.any (fun road => isTouching trig road ramp)) then
    some ⟨ramp.id, none, .connectivity_error, "Ramp must connect to a Driving Lane."⟩
  else none

def rampPass (trig : ℚ → ℚ × ℚ) (els : List LayoutElement) : List ConstraintViolation :=
  (els.filter (fun e => decide (e.type = .RAMP))).filterMap (rampCheck trig els)

def navigableTypes : List ElementType := [.ROAD, .RAMP, .ENTRANCE, .EXIT]

def isNavigable (t : ElementType) : Bool := navigableTypes.contains t

/-- Association list standing for the JavaScript adjacency `Map`. -/
abbrev Adj : Type := List (String × List String)

/-- `Map.set`: overwrite the entry of an existing key, else append. -/
def setAdj (adj : Adj) (k : String) (v : List String) : Adj :=
  if adj.any (fun p => p.1 = k) then adj.map (fun p => if p.1 = k then (k, v) else p)
  else adj ++ [(k, v)]

/-- `adj.get(k)?.push(x)`: append to the entry of `k` when present. -/
def pushAdj (adj : Adj) (k : String) (x : String) : Adj :=
  adj.map (fun p => if p.1 = k then (p.1, p.2 ++ [x]) else p)

/-- `Map.get` with the empty default the BFS uses. -/
def lookupAdj (adj : Adj) (k : String) : List String :=
  ((adj.find? (fun p => p.1 = k)).map Prod.snd).getD []

/-- The adjacency map seeded with an empty neighbor list per navigable. -/
def adjInit (navs : List LayoutElement) : Adj :=
  navs.foldl (fun adj el => setAdj adj el.id []) []

/-- One candidate step of the edge-building loop: on an ordered
intersecting navigable pair, push each id onto the neighbor list of the
other. -/
def edgeStep (trig : ℚ → ℚ × ℚ) (el1 : LayoutElement) (adj : Adj) (el2 : LayoutElement) :
    Adj :=
  if strLt el1.id el2.id &&
      isPolygonsIntersecting (getCorners trig el1) (getCorners trig el2) then
    pushAdj (pushAdj adj el1.id el2.id) el2.id el1.id
  else adj

/-- The edge-building double loop over navigables and their candidates. -/
def buildAdj (trig : ℚ → ℚ × ℚ) (els navs : List LayoutElement) : Adj :=
  navs.foldl
    (fun adj el1 =>
      (((getPotentialCollisions 100 els el1).filter (fun e => isNavigable e.type)).foldl
        (edgeStep trig el1) adj))
    (adjInit navs)

/-- Whether the element found by id in the layout is an exit. -/
def isExitElem (els : List LayoutElement) (i : String) : Bool :=
  match els.find? (fun e => e.id = i) with
  | some e => decide (e.type = .EXIT)
  | none => false

/-- The inner neighbor loop of the BFS: enqueue the unvisited neighbors,
marking them visited as they are pushed. -/
def addNeighbors (visited queue : List String) : List String → List String × List String
  | [] => (visited, queue)
  | n :: ns =>
    if n ∈ visited then addNeighbors visited queue ns
    else addNeighbors (n :: visited) (queue ++ [n]) ns

/-- Every id stored in the adjacency map, keys and values alike. -/
def adjUniverse (adj : Adj) : List String :=
  adj.flatMap (fun p => p.1 :: p.2)

def unvisitedCount (adj : Adj) (visited : List String) : ℕ :=
  ((adjUniverse adj).filter (fun i => decide (i ∉ visited))).length

theorem lookupAdj_subset_universe (adj : Adj) (k : String) :
    ∀ x ∈ lookupAdj adj k, x ∈ adjUniverse adj := by
  intro x hx
  unfold lookupAdj at hx
  rcases hfind : adj.find? (fun p => p.1 = k) with _ | p
  · rw [hfind] at hx; simp at hx
  · rw [hfind] at hx
    simp only [Option.map, Option.getD] at hx
    have hmem := List.mem_of_find?_eq_some hfind
    unfold adjUniverse
    exact List.mem_flatMap.mpr ⟨p, hmem, by simp [hx]⟩

theorem addNeighbors_measure (adj : Adj) :
    ∀ ns visited queue, (∀ n ∈ ns, n ∈ adjUniverse adj) →
      2 * unvisitedCount adj (addNeighbors visited queue ns).1 +
        (addNeighbors visited queue ns).2.length ≤
      2 * unvisitedCount adj visited + queue.length := by
  intro ns
  induction ns with
  | nil => intro visited queue _; exact le_refl _
  | cons n ns ih =>
    intro visited queue hsub
    by_cases hn : n ∈ visited
    · simp only [addNeighbors, if_pos hn]
      exact ih visited queue (fun m hm => hsub m (List.mem_cons_of_mem _ hm))
    · simp only [addNeighbors, if_neg hn]
      refine le_trans (ih (n :: visited) (queue ++ [n])
        (fun m hm => hsub m (List.mem_cons_of_mem _ hm))) ?_
      have hcount : unvisitedCount adj (n :: visited) + 1 ≤ unvisitedCount adj visited := by
        unfold unvisitedCount
        have hfe :
            (adjUniverse adj).filter (fun i => decide (i ∉ n :: visited)) =
              ((adjUniverse adj).filter (fun i => decide (i ∉ visited))).filter
                (fun i => decide (i ≠ n)) := by
          rw [List.filter_filter]
          apply List.filter_congr
          intro x _
          by_cases h1 : x = n <;> by_cases h2 : x ∈ visited <;>
            simp [h1, h2, List.mem_cons, hn]
        rw [hfe]
        have hmem : n ∈ (adjUniverse adj).filter (fun i => decide (i ∉ visited)) := by
          refine List.mem_filter.mpr ⟨hsub n (List.mem_cons_self _ _), by simp [hn]⟩
        have hlt : (((adjUniverse adj).filter (fun i => decide (i ∉ visited))).filter
            (fun i => decide (i ≠ n))).length <
            ((adjUniverse adj).filter (fun i => decide (i ∉ visited))).length :=
          List.length_filter_lt_length_iff_exists.mpr ⟨n, hmem, by simp⟩
        omega
      simp only [List.length_append, List.length_cons, List.length_nil]
      omega

/-- The BFS loop of the connectivity pass: dequeue, stop on an exit,
otherwise enqueue unvisited neighbors. -/
def bfsFound (adj : Adj) (els : List LayoutElement) (visited queue : List String) : Bool :=
  match queue with
  | [] => false
  | curr :: rest =>
    if isExitElem els curr then true
    else
      bfsFound adj els (addNeighbors visited rest (lookupAdj adj curr)).1
        (addNeighbors visited rest (lookupAdj adj curr)).2
termination_by 2 * unvisitedCount adj visited + queue.length
decreasing_by
  have h := addNeighbors_measure adj (lookupAdj adj n) visited ns
    (lookupAdj_subset_universe adj n)
  simp only [List.length_cons]
  omega

/-- Pass 4 (c): the drivability graph and the per-entrance BFS. -/
def graphPass (trig : ℚ → ℚ × ℚ) (els : List LayoutElement) : List ConstraintViolation :=
  let navs := els.filter (fun e => isNavigable e.type)
  if navs.length > 0 then
    let adj := buildAdj trig els navs
    let exits := els.filter (fun e => decide (e.type = .EXIT))
    (els.filter (fun e => decide (e.type = .ENTRANCE))).filterMap
      (fun ent =>
        if !(bfsFound adj els [ent.id] [ent.id]) ∧ exits.length > 0 then
          some ⟨ent.id, none, .connectivity_error,
            "No drivable path exists from this Entrance to any Exit."⟩
        else none)
  else []

/-- The global entrance and exit cardinality checks. -/
def globalPass (els : List LayoutElement) : List ConstraintViolation :=
  (if (els.filter (fun e => decide (e.type = .ENTRANCE))).length < 1 then
    [⟨"global", none, .connectivity_error, "Must have at least one Entrance."⟩]
  else []) ++
  (if (els.filter (fun e => decide (e.type = .EXIT))).length < 1 then
    [⟨"global", none, .connectivity_error, "Must have at least one Exit."⟩]
  else [])

/-- The pipeline body once a non-null element list is in hand, in the
emission order of the source. -/
def validateElements (trig : ℚ → ℚ × ℚ) (W H : ℚ) (els : List LayoutElement) :
    List ConstraintViolation :=
  boundsPass trig W H els ++ overlapPass trig els ++ placementPass trig els ++
    gatePass trig els ++ rampPass trig els ++ graphPass trig els ++ globalPass els

/-- `validateLayout`: empty result on a null layout or a layout whose
elements collection is absent, otherwise the full pipeline. -/
def validateLayout (trig : ℚ → ℚ × ℚ) (layout : Option ParkingLayout) :
    List ConstraintViolation :=
  match layout with
  | none => []
  | some l =>
    match l.elements with
    | none => []
    | some els => validateElements trig l.width l.height els

/-- Exact cosine and sine pairs for the right-angle rotations the
concrete layouts below use (`trig d` stands for
(cos (d·π/180), sin (d·π/180))). -/
def rightAngleTrig : ℚ → ℚ × ℚ :=
  fun d => if d = 90 then (0, 1) else if d = 180 then (-1, 0) else if d = 270 then (0, -1)
  else (1, 0)

/-! ## Basic lemmas about the spatial grid -/

theorem mem_dedupAux {α : Type} [DecidableEq α] (l : List α) :
    ∀ acc x, x ∈ dedupAux acc l ↔ x ∈ acc ∨ x ∈ l := by
  induction l with
  | nil => intro acc x; simp [dedupAux]
  | cons a l ih =>
    intro acc x
    by_cases ha : a ∈ acc
    · simp only [dedupAux, if_pos ha, ih]
      constructor
      · rintro (h | h)
        · exact Or.inl h
        · exact Or.inr (List.mem_cons_of_mem _ h)
      · rintro (h | h)
        · exact Or.inl h
        · rcases List.mem_cons.mp h with rfl | h
          · exact Or.inl ha
          · exact Or.inr h
    · simp only [dedupAux, if_neg ha, ih, List.mem_append, List.mem_singleton, List.mem_cons]
      tauto

theorem mem_dedupFirst {α : Type} [DecidableEq α] (l : List α) (x : α) :
    x ∈ dedupFirst l ↔ x ∈ l := by
  unfold dedupFirst
  rw [mem_dedupAux]
  simp

theorem nodup_dedupAux {α : Type} [DecidableEq α] (l : List α) :
    ∀ acc, acc.Nodup → (dedupAux acc l).Nodup := by
  induction l with
  | nil => intro acc h; exact h
  | cons a l ih =>
    intro acc h
    by_cases ha : a ∈ acc
    · simpa only [dedupAux, if_pos ha] using ih acc h
    · simp only [dedupAux, if_neg ha]
      exact ih (acc ++ [a]) (by simp [List.nodup_append, h, ha])

theorem nodup_dedupFirst {α : Type} [DecidableEq α] (l : List α) :
    (dedupFirst l).Nodup :=
  nodup_dedupAux l [] List.nodup_nil

theorem mem_intRange {lo hi k : ℤ} : k ∈ intRange lo hi ↔ lo ≤ k ∧ k ≤ hi := by
  unfold intRange
  constructor
  · intro h
    rcases List.mem_map.mp h with ⟨i, hi1, rfl⟩
    have := List.mem_range.mp hi1
    omega
  · intro h
    exact List.mem_map.mpr ⟨(k - lo).toNat, List.mem_range.mpr (by omega), by omega⟩

theorem mem_getKeysForElement {cs : ℚ} {el : LayoutElement} {k : ℤ × ℤ} :
    k ∈ getKeysForElement cs el ↔
      ⌊el.x / cs⌋ ≤ k.1 ∧ k.1 ≤ ⌊(el.x + el.width) / cs⌋ ∧
        ⌊el.y / cs⌋ ≤ k.2 ∧ k.2 ≤ ⌊(el.y + el.height) / cs⌋ := by
  unfold getKeysForElement
  simp only [List.mem_flatMap, List.mem_map]
  constructor
  · rintro ⟨kx, hkx, ky, hky, rfl⟩
    rcases mem_intRange.mp hkx with ⟨h1, h2⟩
    rcases mem_intRange.mp hky with ⟨h3, h4⟩
    exact ⟨h1, h2, h3, h4⟩
  · rintro ⟨h1, h2, h3, h4⟩
    exact ⟨k.1, mem_intRange.mpr ⟨h1, h2⟩, k.2, mem_intRange.mpr ⟨h3, h4⟩, rfl⟩

/-- Membership characterization of the broad-phase candidate list: an
element is a candidate of `el` iff it is in the layout, carries a
different id, and its cell keys meet those of `el`. -/
theorem mem_getPotentialCollisions {cs : ℚ} {els : List LayoutElement}
    {el c : LayoutElement} :
    c ∈ getPotentialCollisions cs els el ↔
      c ∈ els ∧ c.id ≠ el.id ∧
        ∃ k, k ∈ getKeysForElement cs el ∧ k ∈ getKeysForElement cs c := by
  unfold getPotentialCollisions
  rw [mem_dedupFirst]
  simp only [List.mem_filter, List.mem_flatMap, decide_eq_true_eq]
  tauto

/-- Any point of the closed unrotated bounding box of `el` yields a cell
key covered by `el`. -/
theorem floorKey_mem_keys {cs : ℚ} (hcs : 0 < cs) {el : LayoutElement} {px py : ℚ}
    (hx1 : el.x ≤ px) (hx2 : px ≤ el.x + el.width)
    (hy1 : el.y ≤ py) (hy2 : py ≤ el.y + el.height) :
    (⌊px / cs⌋, ⌊py / cs⌋) ∈ getKeysForElement cs el := by
  refine mem_getKeysForElement.mpr ⟨?_, ?_, ?_, ?_⟩
  · exact Int.floor_le_floor ((div_le_div_iff_of_pos_right hcs).mpr hx1)
  · exact Int.floor_le_floor ((div_le_div_iff_of_pos_right hcs).mpr hx2)
  · exact Int.floor_le_floor ((div_le_div_iff_of_pos_right hcs).mpr hy1)
  · exact Int.floor_le_floor ((div_le_div_iff_of_pos_right hcs).mpr hy2)

/-- Closed axis-aligned overlap of the unrotated bounding boxes forces a
common grid cell. -/
theorem common_key_of_aabb_overlap {cs : ℚ} (hcs : 0 < cs) {a b : LayoutElement}
    (hx : max a.x b.x ≤ min (a.x + a.width) (b.x + b.width))
    (hy : max a.y b.y ≤ min (a.y + a.height) (b.y + b.height)) :
    ∃ k, k ∈ getKeysForElement cs a ∧ k ∈ getKeysForElement cs b := by
  refine ⟨(⌊(max a.x b.x) / cs⌋, ⌊(max a.y b.y) / cs⌋), ?_, ?_⟩
  · exact floorKey_mem_keys hcs (le_max_left _ _)
      (le_trans hx (min_le_left _ _)) (le_max_left _ _) (le_trans hy (min_le_left _ _))
  · exact floorKey_mem_keys hcs (le_max_right _ _)
      (le_trans hx (min_le_right _ _)) (le_max_right _ _) (le_trans hy (min_le_right _ _))

/-! ## Concrete layout elements used by the counterexamples and witnesses -/

/-- A long thin wall rotated a quarter turn: its rotated footprint leaves
its unrotated bounding box. -/
def rotLong : LayoutElement := ⟨"a", .WALL, 0, 0, 250, 10, 90⟩

/-- A small axis-aligned wall inside the rotated footprint of `rotLong`
but outside its unrotated bounding box. -/
def rotSmall : LayoutElement := ⟨"b", .WALL, 120, 110, 10, 10, 0⟩

/-- A thin wall whose unrotated box is inside a 300 by 100 plane but
whose quarter-turn rotation sticks far outside it. -/
def rotOut : LayoutElement := ⟨"a", .WALL, 0, 45, 300, 10, 90⟩

/-- Two axis-aligned pillars sharing exactly the edge x = 10. -/
def pillarA : LayoutElement := ⟨"a", .PILLAR, 0, 0, 10, 10, 0⟩

def pillarB : LayoutElement := ⟨"b", .PILLAR, 10, 0, 10, 10, 0⟩

/-- A small pillar genuinely overlapping `pillarA` but with a top-left
corner far enough away to fail the distance pre-filter. -/
def pillarC : LayoutElement := ⟨"b", .PILLAR, 99 / 10, 5, 1, 1, 0⟩

/-- Two axis-aligned walls separated by a gap of 1 unit. -/
def gapA : LayoutElement := ⟨"a", .WALL, 0, 0, 10, 10, 0⟩

def gapB : LayoutElement := ⟨"b", .WALL, 11, 0, 10, 10, 0⟩

/-- Two walls whose boxes overlap by 3/10 of a unit horizontally. -/
def shallowA : LayoutElement := ⟨"a", .WALL, 0, 0, 10, 10, 0⟩

def shallowB : LayoutElement := ⟨"b", .WALL, 97 / 10, 0, 10, 10, 0⟩

/-- Two closely overlapping walls inside one grid cell. -/
def nearA : LayoutElement := ⟨"a", .WALL, 0, 0, 10, 10, 0⟩

def nearB : LayoutElement := ⟨"b", .WALL, 5, 5, 10, 10, 0⟩

/-- A ramp and a road overlapping by exactly 1 unit vertically: a valid
shallow connector contact. -/
def rampEx : LayoutElement := ⟨"r1", .RAMP, 0, 0, 40, 60, 0⟩

def roadEx : LayoutElement := ⟨"r2", .ROAD, 0, 59, 100, 60, 0⟩

/-! ## Claim C1 -/

/-- Claim C1, amended: the broad-phase guarantee of
`getPotentialCollisions` holds for the unrotated axis-aligned bounding
boxes (any rotation values): whenever the closed unrotated boxes of two
elements of the layout with distinct ids overlap, each element appears in
the candidate set of the other.  The guarantee does not extend to the
rotated true geometry, because cell coverage is computed from the
unrotated box, which does not contain the rotated footprint in general
(see the counterexample). -/
theorem claim_C1_amended (cs : ℚ) (hcs : 0 < cs) (els : List LayoutElement)
    (a b : LayoutElement) (ha : a ∈ els) (hb : b ∈ els) (hid : a.id ≠ b.id)
    (hx : max a.x b.x ≤ min (a.x + a.width) (b.x + b.width))
    (hy : max a.y b.y ≤ min (a.y + a.height) (b.y + b.height)) :
    b ∈ getPotentialCollisions cs els a ∧ a ∈ getPotentialCollisions cs els b := by
  rcases common_key_of_aabb_overlap hcs hx hy with ⟨k, hka, hkb⟩
  constructor
  · exact mem_getPotentialCollisions.mpr ⟨hb, fun h => hid h.symm, k, hka, hkb⟩
  · exact mem_getPotentialCollisions.mpr ⟨ha, hid, k, hkb, hka⟩

/-- Claim C1, witness for the amended theorem at a concrete overlapping
pair. -/
theorem claim_C1_witness :
    (0 : ℚ) < 100 ∧
      (nearB ∈ getPotentialCollisions 100 [nearA, nearB] nearA ∧
        nearA ∈ getPotentialCollisions 100 [nearA, nearB] nearB) :=
  ⟨by decide,
    claim_C1_amended 100 (by decide) [nearA, nearB] nearA nearB (by decide) (by decide)
      (by decide) (by decide) (by decide)⟩

/-- Claim C1, counterexample to the claim as stated: the true rotated
geometries of `rotLong` (rotation 90) and `rotSmall` overlap — the exact
polygon test confirms it — yet neither appears in the candidate set of
the other, because the quarter-turned footprint of `rotLong` covers grid
cells its unrotated bounding box does not touch. -/
theorem claim_C1_counterexample :
    isPolygonsIntersecting (getCorners rightAngleTrig rotLong) (getCorners rightAngleTrig rotSmall)
        = true ∧
      rotSmall ∉ getPotentialCollisions 100 [rotLong, rotSmall] rotLong ∧
      rotLong ∉ getPotentialCollisions 100 [rotLong, rotSmall] rotSmall := by
  refine ⟨by decide, by decide, by decide⟩

/-! ## Claim C6 -/

/-- Claim C6, amended: `getIntersectionBox` returns `none` exactly when
the computed overlap width or height is ≤ 0 — strict positivity, with no
epsilon: the EPSILON = 0.5 shallow-overlap filter lives in
`isOverlapping`, not in `getIntersectionBox`, so overlaps shallower than
EPSILON still produce a box. -/
theorem claim_C6_amended (r1 r2 : LayoutElement) :
    getIntersectionBox r1 r2 = none ↔
      min (r1.x + r1.width) (r2.x + r2.width) ≤ max r1.x r2.x ∨
      min (r1.y + r1.height) (r2.y + r2.height) ≤ max r1.y r2.y := by
  unfold getIntersectionBox
  by_cases h : max r1.x r2.x < min (r1.x + r1.width) (r2.x + r2.width) ∧
      max r1.y r2.y < min (r1.y + r1.height) (r2.y + r2.height)
  · rw [if_pos h]
    constructor
    · intro hc; simp at hc
    · rintro (hc | hc)
      · exact absurd hc (not_le.mpr h.1)
      · exact absurd hc (not_le.mpr h.2)
  · rw [if_neg h]
    constructor
    · intro _
      rcases not_and_or.mp h with h1 | h1
      · exact Or.inl (not_lt.mp h1)
      · exact Or.inr (not_lt.mp h1)
    · intro _; rfl

/-- Claim C6, counterexample to the claim as stated: the boxes of
`shallowA` and `shallowB` overlap by 3/10 ≤ EPSILON = 1/2 of a unit in
width, yet `getIntersectionBox` returns a box rather than `none`. -/
theorem claim_C6_counterexample :
    getIntersectionBox shallowA shallowB = some ⟨97 / 10, 0, 3 / 10, 10⟩ ∧
      (3 / 10 : ℚ) ≤ EPSILON := by
  refine ⟨by decide, by decide⟩

/-! ## Claim C8 -/

/-- Claim C8, amended: `validateLayout` returns the empty violation list
for a null layout and for a layout whose elements collection is absent;
a layout with a present but empty elements array is not treated as
vacuously valid — it yields exactly the two global connectivity
violations (no entrance, no exit). -/
theorem claim_C8_amended :
    (∀ trig, validateLayout trig none = []) ∧
      (∀ trig W H, validateLayout trig (some ⟨W, H, none⟩) = []) ∧
      (∀ trig W H, validateLayout trig (some ⟨W, H, some []⟩) =
        [⟨"global", none, .connectivity_error, "Must have at least one Entrance."⟩,
          ⟨"global", none, .connectivity_error, "Must have at least one Exit."⟩]) :=
  ⟨fun _ => rfl, fun _ _ _ => rfl, fun _ _ _ => rfl⟩

/-- Claim C8, counterexample to the claim as stated: a layout whose
elements array is present but empty does not return the empty violation
list; it returns the two global connectivity violations. -/
theorem claim_C8_counterexample :
    validateLayout rightAngleTrig (some ⟨800, 600, some []⟩) ≠ [] ∧
      validateLayout rightAngleTrig (some ⟨800, 600, some []⟩) =
        [⟨"global", none, .connectivity_error, "Must have at least one Entrance."⟩,
          ⟨"global", none, .connectivity_error, "Must have at least one Exit."⟩] := by
  refine ⟨by decide, by decide⟩

/-! ## Shape lemmas for the pipeline passes -/

theorem strLt_ne {a b : String} (h : strLt a b = true) : a ≠ b := by
  intro hab
  subst hab
  unfold strLt at h
  exact absurd (of_decide_eq_true h) (lt_irrefl _)

theorem boundsCheck_eq_some_iff {trig : ℚ → ℚ × ℚ} {W H : ℚ} {el : LayoutElement}
    {v : ConstraintViolation} :
    boundsCheck trig W H el = some v ↔
      (el.x < 0 ∨ el.x + el.width > W ∨ el.y < 0 ∨ el.y + el.height > H) ∧
        (∃ p ∈ getCorners trig el, p.x < 0 ∨ p.x > W ∨ p.y < 0 ∨ p.y > H) ∧
        v = ⟨el.id, none, .out_of_bounds, "Element is outside boundary."⟩ := by
  unfold boundsCheck
  split_ifs with h1 h2
  · simp only [Option.some_inj]
    constructor
    · intro hv
      rcases List.any_eq_true.mp h2 with ⟨p, hp, hcond⟩
      exact ⟨h1, ⟨p, hp, of_decide_eq_true hcond⟩, hv.symm⟩
    · rintro ⟨-, -, hv⟩
      exact hv.symm
  · constructor
    · intro h; cases h
    · rintro ⟨-, ⟨p, hp, hcond⟩, -⟩
      exact absurd (List.any_eq_true.mpr ⟨p, hp, decide_eq_true hcond⟩) h2
  · constructor
    · intro h; cases h
    · rintro ⟨hq, -, -⟩
      exact absurd hq h1

theorem mem_boundsPass {trig : ℚ → ℚ × ℚ} {W H : ℚ} {els : List LayoutElement}
    {v : ConstraintViolation} :
    v ∈ boundsPass trig W H els ↔ ∃ el ∈ els, boundsCheck trig W H el = some v := by
  unfold boundsPass
  exact List.mem_filterMap

theorem overlapCheck_eq_some_iff {trig : ℚ → ℚ × ℚ} {el1 el2 : LayoutElement}
    {v : ConstraintViolation} :
    overlapCheck trig el1 el2 = some v ↔
      strLt el1.id el2.id = true ∧ isSolid el2.type = true ∧
        permittedOverlap el1 el2 = false ∧ connectorExempt el1 el2 = false ∧
        distFilter el1 el2 = true ∧
        isPolygonsIntersecting (getCorners trig el1) (getCorners trig el2) = true ∧
        v = ⟨el1.id, some el2.id, .overlap,
          typeName el1.type ++ " overlaps with " ++ typeName el2.type⟩ := by
  unfold overlapCheck
  split_ifs with h1 h2 h3 h4 h5 h6
  · constructor
    · intro h; cases h
    · rintro ⟨hl, -⟩
      simp [hl] at h1
  · constructor
    · intro h; cases h
    · rintro ⟨-, hs, -⟩
      simp [hs] at h2
  · constructor
    · intro h; cases h
    · rintro ⟨-, -, hp, -⟩
      simp [h3] at hp
  · constructor
    · intro h; cases h
    · rintro ⟨-, -, -, hc, -⟩
      simp [h4] at hc
  · simp only [Option.some_inj]
    constructor
    · intro hv
      refine ⟨?_, ?_, ?_, ?_, h5, h6, hv.symm⟩
      · simpa using h1
      · simpa using h2
      · simpa using h3
      · simpa using h4
    · rintro ⟨-, -, -, -, -, -, hv⟩
      exact hv.symm
  · constructor
    · intro h; cases h
    · rintro ⟨-, -, -, -, -, hi, -⟩
      exact absurd hi h6
  · constructor
    · intro h; cases h
    · rintro ⟨-, -, -, -, hd, -⟩
      exact absurd hd h5

theorem mem_overlapPass {trig : ℚ → ℚ × ℚ} {els : List LayoutElement}
    {v : ConstraintViolation} :
    v ∈ overlapPass trig els ↔
      ∃ el1, el1 ∈ els ∧ isSolid el1.type = true ∧
        ∃ el2, el2 ∈ getPotentialCollisions 100 els el1 ∧ overlapCheck trig el1 el2 = some v := by
  unfold overlapPass
  simp only [List.mem_flatMap, List.mem_filterMap, List.mem_filter]
  tauto

theorem mem_placementCheck {trig : ℚ → ℚ × ℚ} {els : List LayoutElement}
    {item : LayoutElement} {v : ConstraintViolation} :
    v ∈ placementCheck trig els item ↔
      (itemsOnRoad.contains item.type = true ∧
        (((getPotentialCollisions 100 els item).filter
            (fun c => decide (c.type = .ROAD))).any
          (fun road => isOverlapping trig road item 2)) = false ∧
        v = ⟨item.id, none, .placement_error,
          typeName item.type ++ " must be placed on a Driving Lane."⟩) ∨
      (itemsNotOnRoad.contains item.type = true ∧
        (((getPotentialCollisions 100 els item).filter
            (fun c => decide (c.type = .ROAD))).any
          (fun road => isOverlapping trig road item 0)) = true ∧
        item.type ≠ .SIDEWALK ∧
        v = ⟨item.id, none, .placement_error,
          typeName item.type ++ " must NOT overlap a Driving Lane."⟩) := by
  unfold placementCheck
  rcases h1 : itemsOnRoad.contains item.type with _ | _ <;>
    rcases h2 : ((getPotentialCollisions 100 els item).filter
        (fun c => decide (c.type = .ROAD))).any (fun road => isOverlapping trig road item 2) with
      _ | _ <;>
    rcases h3 : itemsNotOnRoad.contains item.type with _ | _ <;>
    rcases h4 : ((getPotentialCollisions 100 els item).filter
        (fun c => decide (c.type = .ROAD))).any (fun road => isOverlapping trig road item 0) with
      _ | _ <;>
    by_cases h5 : item.type = .SIDEWALK <;>
    simp [h1, h2, h3, h4, h5]

theorem mem_placementPass {trig : ℚ → ℚ × ℚ} {els : List LayoutElement}
    {v : ConstraintViolation} :
    v ∈ placementPass trig els ↔ ∃ item ∈ els, v ∈ placementCheck trig els item := by
  unfold placementPass
  exact List.mem_flatMap

theorem placementPass_shape {trig : ℚ → ℚ × ℚ} {els : List LayoutElement}
    {v : ConstraintViolation} (h : v ∈ placementPass trig els) :
    v.targetId = none ∧ v.type = .placement_error := by
  rcases mem_placementPass.mp h with ⟨item, -, hm⟩
  rcases mem_placementCheck.mp hm with ⟨-, -, rfl⟩ | ⟨-, -, -, rfl⟩ <;> exact ⟨rfl, rfl⟩

theorem gateCheck_eq_some_iff {trig : ℚ → ℚ × ℚ} {els : List LayoutElement}
    {gate : LayoutElement} {v : ConstraintViolation} :
    gateCheck trig els gate = some v ↔
      (((getPotentialCollisions 100 els gate).filter (fun c => decide (c.type = .RAMP))).any
          (fun r => isTouching trig r gate)) = false ∧
        v = ⟨gate.id, none, .connectivity_error,
          typeName gate.type ++ " must be adjacent to a Ramp."⟩ := by
  unfold gateCheck
  dsimp only
  split_ifs with h1
  · simp only [Option.some_inj]
    constructor
    · intro hv
      exact ⟨by simpa using h1, hv.symm⟩
    · rintro ⟨-, hv⟩
      exact hv.symm
  · constructor
    · intro h; cases h
    · rintro ⟨hf, -⟩
      simp [hf] at h1

theorem mem_gatePass {trig : ℚ → ℚ × ℚ} {els : List LayoutElement}
    {v : ConstraintViolation} :
    v ∈ gatePass trig els ↔
      ∃ gate, gate ∈ els ∧ (gate.type = .ENTRANCE ∨ gate.type = .EXIT) ∧
        gateCheck trig els gate = some v := by
  unfold gatePass
  simp only [List.mem_filterMap, List.mem_filter, decide_eq_true_eq]
  constructor
  · rintro ⟨gate, ⟨hg, ht⟩, hc⟩
    exact ⟨gate, hg, ht, hc⟩
  · rintro ⟨gate, hg, ht, hc⟩
    exact ⟨gate, ⟨hg, ht⟩, hc⟩

theorem rampCheck_eq_some_iff {trig : ℚ → ℚ × ℚ} {els : List LayoutElement}
    {ramp : LayoutElement} {v : ConstraintViolation} :
    rampCheck trig els ramp = some v ↔
      (((getPotentialCollisions 100 els ramp).filter (fun c => decide (c.type = .ROAD))).any
          (fun road => isTouching trig road ramp)) = false ∧
        v = ⟨ramp.id, none, .connectivity_error, "Ramp must connect to a Driving Lane."⟩ := by
  unfold rampCheck
  dsimp only
  split_ifs with h1
  · simp only [Option.some_inj]
    constructor
    · intro hv
      exact ⟨by simpa using h1, hv.symm⟩
    · rintro ⟨-, hv⟩
      exact hv.symm
  · constructor
    · intro h; cases h
    · rintro ⟨hf, -⟩
      simp [hf] at h1

theorem mem_rampPass {trig : ℚ → ℚ × ℚ} {els : List LayoutElement}
    {v : ConstraintViolation} :
    v ∈ rampPass trig els ↔
      ∃ ramp, ramp ∈ els ∧ ramp.type = .RAMP ∧ rampCheck trig els ramp = some v := by
  unfold rampPass
  simp only [List.mem_filterMap, List.mem_filter, decide_eq_true_eq]
  constructor
  · rintro ⟨ramp, ⟨hg, ht⟩, hc⟩
    exact ⟨ramp, hg, ht, hc⟩
  · rintro ⟨ramp, hg, ht, hc⟩
    exact ⟨ramp, ⟨hg, ht⟩, hc⟩

theorem mem_graphPass {trig : ℚ → ℚ × ℚ} {els : List LayoutElement}
    {v : ConstraintViolation} :
    v ∈ graphPass trig els ↔
      (els.filter (fun e => isNavigable e.type)).length > 0 ∧
        ∃ ent, ent ∈ els ∧ ent.type = .ENTRANCE ∧
          bfsFound (buildAdj trig els (els.filter (fun e => isNavigable e.type))) els
              [ent.id] [ent.id] = false ∧
          (els.filter (fun e => decide (e.type = .EXIT))).length > 0 ∧
          v = ⟨ent.id, none, .connectivity_error,
            "No drivable path exists from this Entrance to any Exit."⟩ := by
  unfold graphPass
  by_cases hn : (els.filter (fun e => isNavigable e.type)).length > 0
  · simp only [if_pos hn, List.mem_filterMap, List.mem_filter, decide_eq_true_eq]
    constructor
    · rintro ⟨ent, ⟨hent, htype⟩, hsome⟩
      by_cases hb : bfsFound (buildAdj trig els (els.filter (fun e => isNavigable e.type)))
          els [ent.id] [ent.id] <;>
        by_cases hex : (els.filter (fun e => decide (e.type = .EXIT))).length > 0 <;>
        simp [hb, hex] at hsome <;>
        exact ⟨hn, ent, hent, htype, by simp [hb], hex, hsome.symm⟩
    · rintro ⟨-, ent, hent, htype, hb, hex, rfl⟩
      exact ⟨ent, ⟨hent, htype⟩, by simp [hb, hex]⟩
  · simp only [if_neg hn, List.not_mem_nil, false_iff]
    rintro ⟨hc, -⟩
    exact hn hc

theorem mem_globalPass {els : List LayoutElement} {v : ConstraintViolation} :
    v ∈ globalPass els ↔
      ((els.filter (fun e => decide (e.type = .ENTRANCE))).length < 1 ∧
          v = ⟨"global", none, .connectivity_error, "Must have at least one Entrance."⟩) ∨
        ((els.filter (fun e => decide (e.type = .EXIT))).length < 1 ∧
          v = ⟨"global", none, .connectivity_error, "Must have at least one Exit."⟩) := by
  unfold globalPass
  by_cases h1 : (els.filter (fun e => decide (e.type = .ENTRANCE))).length < 1 <;>
    by_cases h2 : (els.filter (fun e => decide (e.type = .EXIT))).length < 1 <;>
    simp [h1, h2]

/-- Where a violation of the full pipeline can come from. -/
theorem mem_validateElements {trig : ℚ → ℚ × ℚ} {W H : ℚ} {els : List LayoutElement}
    {v : ConstraintViolation} :
    v ∈ validateElements trig W H els ↔
      v ∈ boundsPass trig W H els ∨ v ∈ overlapPass trig els ∨ v ∈ placementPass trig els ∨
        v ∈ gatePass trig els ∨ v ∈ rampPass trig els ∨ v ∈ graphPass trig els ∨
        v ∈ globalPass els := by
  unfold validateElements
  simp [List.mem_append, or_assoc]

/-! ## Claim C10 -/

/-- Claim C10: duplicate-id invisibility.  `getPotentialCollisions`
filters candidates by id equality, so an element never sees a same-id
element in its broad-phase candidate set — hence no pairwise check ever
runs between two same-id elements — and consequently no violation of the
pipeline ever pairs an element with its own id (the only violations
carrying a target id are overlap violations, whose ids are strictly
ordered). -/
theorem claim_C10_duplicate_id_invisibility :
    (∀ (cs : ℚ) (els : List LayoutElement) (el : LayoutElement),
      ∀ c ∈ getPotentialCollisions cs els el, c.id ≠ el.id) ∧
      (∀ (trig : ℚ → ℚ × ℚ) (layout : Option ParkingLayout) (v : ConstraintViolation),
        v ∈ validateLayout trig layout → ∀ t, v.targetId = some t → v.elementId ≠ t) := by
  constructor
  · intro cs els el c hc
    exact (mem_getPotentialCollisions.mp hc).2.1
  · rintro trig (_ | ⟨W, H, _ | els⟩) v hv t ht
    · simp [validateLayout] at hv
    · simp [validateLayout] at hv
    · rcases mem_validateElements.mp hv with h | h | h | h | h | h | h
      · rcases mem_boundsPass.mp h with ⟨el, -, hb⟩
        rcases boundsCheck_eq_some_iff.mp hb with ⟨-, -, rfl⟩
        cases ht
      · rcases mem_overlapPass.mp h with ⟨el1, -, -, el2, -, ho⟩
        rcases overlapCheck_eq_some_iff.mp ho with ⟨hlt, -, -, -, -, -, rfl⟩
        cases ht
        exact strLt_ne hlt
      · rcases placementPass_shape h with ⟨hn, -⟩
        rw [hn] at ht
        cases ht
      · rcases mem_gatePass.mp h with ⟨g, -, -, hg⟩
        rcases gateCheck_eq_some_iff.mp hg with ⟨-, rfl⟩
        cases ht
      · rcases mem_rampPass.mp h with ⟨r, -, -, hr⟩
        rcases rampCheck_eq_some_iff.mp hr with ⟨-, rfl⟩
        cases ht
      · rcases mem_graphPass.mp h with ⟨-, ent, -, -, -, -, rfl⟩
        cases ht
      · rcases mem_globalPass.mp h with ⟨-, rfl⟩ | ⟨-, rfl⟩ <;> cases ht

/-- Claim C10, witness: at the touching pillar pair, the candidate of
`pillarA` has a different id, and the emitted overlap violation does not
pair an id with itself. -/
theorem claim_C10_witness : ("b" : String) ≠ "a" ∧ ("a" : String) ≠ "b" :=
  ⟨claim_C10_duplicate_id_invisibility.1 100 [pillarA, pillarB] pillarA pillarB (by decide),
    claim_C10_duplicate_id_invisibility.2 rightAngleTrig
      (some ⟨800, 600, some [pillarA, pillarB]⟩)
      ⟨"a", some "b", .overlap, "pillar overlaps with pillar"⟩ (by decide) "b" rfl⟩

/-! ## Claim C2 -/

/-- Claim C2, amended: the bounds pass never flags an element all of
whose rotated corners lie inside the closed plane box (first part, under
unique ids), and it always flags an element with a rotated corner
strictly outside, but only provided the quick unrotated-bounding-box
pre-check fires, that is, the unrotated box itself leaves the plane box
(second part).  The claim as stated fails because the quick pre-check can
skip a rotated element whose unrotated box is inside the plane while a
rotated corner is outside (see the counterexample). -/
theorem claim_C2_amended :
    (∀ (trig : ℚ → ℚ × ℚ) (W H : ℚ) (els : List LayoutElement) (el : LayoutElement),
      (els.map LayoutElement.id).Nodup → el ∈ els →
      (∀ p ∈ getCorners trig el, 0 ≤ p.x ∧ p.x ≤ W ∧ 0 ≤ p.y ∧ p.y ≤ H) →
      ∀ v ∈ validateLayout trig (some ⟨W, H, some els⟩),
        ¬(v.type = ViolationType.out_of_bounds ∧ v.elementId = el.id)) ∧
      (∀ (trig : ℚ → ℚ × ℚ) (W H : ℚ) (els : List LayoutElement) (el : LayoutElement),
        el ∈ els →
        (el.x < 0 ∨ el.x + el.width > W ∨ el.y < 0 ∨ el.y + el.height > H) →
        (∃ p ∈ getCorners trig el, p.x < 0 ∨ p.x > W ∨ p.y < 0 ∨ p.y > H) →
        (⟨el.id, none, .out_of_bounds, "Element is outside boundary."⟩ : ConstraintViolation) ∈
          validateLayout trig (some ⟨W, H, some els⟩)) := by
  constructor
  · intro trig W H els el hnd hel hin v hv hva
    rcases mem_validateElements.mp hv with h | h | h | h | h | h | h
    · rcases mem_boundsPass.mp h with ⟨e, he, hb⟩
      rcases boundsCheck_eq_some_iff.mp hb with ⟨-, ⟨p, hp, hout⟩, rfl⟩
      have : e = el := List.inj_on_of_nodup_map hnd he hel hva.2
      subst this
      rcases hin p hp with ⟨h1, h2, h3, h4⟩
      rcases hout with h5 | h5 | h5 | h5 <;> linarith
    · rcases mem_overlapPass.mp h with ⟨el1, -, -, el2, -, ho⟩
      rcases overlapCheck_eq_some_iff.mp ho with ⟨-, -, -, -, -, -, rfl⟩
      cases hva.1
    · rcases placementPass_shape h with ⟨-, ht⟩
      rw [ht] at hva
      cases hva.1
    · rcases mem_gatePass.mp h with ⟨g, -, -, hg⟩
      rcases gateCheck_eq_some_iff.mp hg with ⟨-, rfl⟩
      cases hva.1
    · rcases mem_rampPass.mp h with ⟨r, -, -, hr⟩
      rcases rampCheck_eq_some_iff.mp hr with ⟨-, rfl⟩
      cases hva.1
    · rcases mem_graphPass.mp h with ⟨-, ent, -, -, -, -, rfl⟩
      cases hva.1
    · rcases mem_globalPass.mp h with ⟨-, rfl⟩ | ⟨-, rfl⟩ <;> cases hva.1
  · intro trig W H els el hel hquick hout
    exact mem_validateElements.mpr
      (Or.inl (mem_boundsPass.mpr ⟨el, hel, boundsCheck_eq_some_iff.mpr ⟨hquick, hout, rfl⟩⟩))

/-- An element strictly left of the plane, used as the claim C2 witness
input. -/
def oobWall : LayoutElement := ⟨"a", .WALL, -5, 0, 10, 10, 0⟩

/-- A comfortably interior element, used as the claim C2 witness input. -/
def insideWall : LayoutElement := ⟨"c", .WALL, 1, 1, 10, 10, 0⟩

/-- Claim C2, witness for the amended theorem: an interior element is
never flagged, a protruding element is flagged. -/
theorem claim_C2_witness :
    ¬((⟨"global", none, .connectivity_error,
          "Must have at least one Entrance."⟩ : ConstraintViolation).type =
            ViolationType.out_of_bounds ∧
        (⟨"global", none, .connectivity_error,
          "Must have at least one Entrance."⟩ : ConstraintViolation).elementId = insideWall.id) ∧
      (⟨"a", none, .out_of_bounds, "Element is outside boundary."⟩ : ConstraintViolation) ∈
        validateLayout rightAngleTrig (some ⟨800, 600, some [oobWall]⟩) :=
  ⟨claim_C2_amended.1 rightAngleTrig 800 600 [insideWall] insideWall (by decide) (by decide)
      (by decide) _ (by decide),
    claim_C2_amended.2 rightAngleTrig 800 600 [oobWall] oobWall (by decide) (by decide)
      (by decide)⟩

/-- Claim C2, counterexample to the claim as stated: `rotOut` (rotation
90) has rotated corners strictly outside the 300 by 100 plane, yet
`validateLayout` emits no out-of-bounds violation for it, because the
quick unrotated-box pre-check sees an interior box and skips the exact
corner test. -/
theorem claim_C2_counterexample :
    ((getCorners rightAngleTrig rotOut).any
        (fun p => decide (p.x < 0 ∨ p.x > 300 ∨ p.y < 0 ∨ p.y > 100))) = true ∧
      (validateLayout rightAngleTrig (some ⟨300, 100, some [rotOut]⟩)).all
        (fun v => decide (v.type ≠ ViolationType.out_of_bounds)) = true := by
  refine ⟨by decide, by decide⟩

/-! ## The separating-axis test on axis-aligned rectangles -/

theorem getCorners_rot0 {trig : ℚ → ℚ × ℚ} (h0 : trig 0 = (1, 0)) {el : LayoutElement}
    (hrot : el.rot = 0) :
    getCorners trig el =
      [⟨el.x, el.y⟩, ⟨el.x + el.width, el.y⟩, ⟨el.x + el.width, el.y + el.height⟩,
        ⟨el.x, el.y + el.height⟩] := by
  unfold getCorners
  rw [hrot, h0]
  simp only [List.map_cons, List.map_nil, List.cons.injEq, Point.mk.injEq, and_true]
  norm_num

theorem projectPoly_quad (nx ny : ℚ) (p1 p2 p3 p4 : Point) :
    projectPoly nx ny [p1, p2, p3, p4] =
      (min (min (min (nx * p1.x + ny * p1.y) (nx * p2.x + ny * p2.y))
          (nx * p3.x + ny * p3.y)) (nx * p4.x + ny * p4.y),
        max (max (max (nx * p1.x + ny * p1.y) (nx * p2.x + ny * p2.y))
          (nx * p3.x + ny * p3.y)) (nx * p4.x + ny * p4.y)) := rfl

theorem edgePairs_quad (p1 p2 p3 p4 : Point) :
    edgePairs [p1, p2, p3, p4] = [(p1, p2), (p2, p3), (p3, p4), (p4, p1)] := rfl

/-- Projection interval of an axis-aligned rectangle corner list on a
horizontal axis with positive scale. -/
theorem projectPoly_horiz_pos {c w : ℚ} (hc : 0 < c) (hw : 0 ≤ w) (x y h : ℚ) :
    projectPoly c 0 [⟨x, y⟩, ⟨x + w, y⟩, ⟨x + w, y + h⟩, ⟨x, y + h⟩] =
      (c * x, c * (x + w)) := by
  have hle : c * x ≤ c * (x + w) := mul_le_mul_of_nonneg_left (by linarith) (le_of_lt hc)
  rw [projectPoly_quad]
  simp only [zero_mul, zero_add, mul_zero, add_zero, Prod.mk.injEq]
  constructor <;>
    simp [min_eq_left hle, min_eq_right hle, max_eq_left hle, max_eq_right hle, min_self,
      max_self]

theorem projectPoly_horiz_neg {c w : ℚ} (hc : c < 0) (hw : 0 ≤ w) (x y h : ℚ) :
    projectPoly c 0 [⟨x, y⟩, ⟨x + w, y⟩, ⟨x + w, y + h⟩, ⟨x, y + h⟩] =
      (c * (x + w), c * x) := by
  have hle : c * (x + w) ≤ c * x := by nlinarith
  rw [projectPoly_quad]
  simp only [zero_mul, zero_add, mul_zero, add_zero, Prod.mk.injEq]
  constructor <;>
    simp [min_eq_left hle, min_eq_right hle, max_eq_left hle, max_eq_right hle, min_self,
      max_self]

/-- Projection interval of an axis-aligned rectangle corner list on a
vertical axis with positive scale. -/
theorem projectPoly_vert_pos {c h : ℚ} (hc : 0 < c) (hh : 0 ≤ h) (x y w : ℚ) :
    projectPoly 0 c [⟨x, y⟩, ⟨x + w, y⟩, ⟨x + w, y + h⟩, ⟨x, y + h⟩] =
      (c * y, c * (y + h)) := by
  have hle : c * y ≤ c * (y + h) := mul_le_mul_of_nonneg_left (by linarith) (le_of_lt hc)
  rw [projectPoly_quad]
  simp only [zero_mul, zero_add, mul_zero, add_zero, Prod.mk.injEq]
  constructor <;>
    simp [min_eq_left hle, min_eq_right hle, max_eq_left hle, max_eq_right hle, min_self,
      max_self]

theorem projectPoly_vert_neg {c h : ℚ} (hc : c < 0) (hh : 0 ≤ h) (x y w : ℚ) :
    projectPoly 0 c [⟨x, y⟩, ⟨x + w, y⟩, ⟨x + w, y + h⟩, ⟨x, y + h⟩] =
      (c * (y + h), c * y) := by
  have hle : c * (y + h) ≤ c * y := by nlinarith
  rw [projectPoly_quad]
  simp only [zero_mul, zero_add, mul_zero, add_zero, Prod.mk.injEq]
  constructor <;>
    simp [min_eq_left hle, min_eq_right hle, max_eq_left hle, max_eq_right hle, min_self,
      max_self]

/-- On a horizontal axis, the separating test between two axis-aligned
rectangle corner lists is exactly strict disjointness of the x ranges. -/
theorem separatesOn_horiz {c x1 y1 w1 h1 x2 y2 w2 h2 : ℚ} (hc : c ≠ 0)
    (hw1 : 0 ≤ w1) (hw2 : 0 ≤ w2) :
    separatesOn c 0 [⟨x1, y1⟩, ⟨x1 + w1, y1⟩, ⟨x1 + w1, y1 + h1⟩, ⟨x1, y1 + h1⟩]
        [⟨x2, y2⟩, ⟨x2 + w2, y2⟩, ⟨x2 + w2, y2 + h2⟩, ⟨x2, y2 + h2⟩] =
      decide (x1 + w1 < x2 ∨ x2 + w2 < x1) := by
  unfold separatesOn
  rcases lt_or_gt_of_ne hc with hneg | hpos
  · rw [projectPoly_horiz_neg hneg hw1, projectPoly_horiz_neg hneg hw2]
    dsimp only
    apply decide_eq_decide.mpr
    rw [mul_lt_mul_left_of_neg hneg, mul_lt_mul_left_of_neg hneg]
    exact or_comm
  · rw [projectPoly_horiz_pos hpos hw1, projectPoly_horiz_pos hpos hw2]
    dsimp only
    apply decide_eq_decide.mpr
    rw [mul_lt_mul_left hpos, mul_lt_mul_left hpos]

/-- On a vertical axis, the separating test between two axis-aligned
rectangle corner lists is exactly strict disjointness of the y ranges. -/
theorem separatesOn_vert {c x1 y1 w1 h1 x2 y2 w2 h2 : ℚ} (hc : c ≠ 0)
    (hh1 : 0 ≤ h1) (hh2 : 0 ≤ h2) :
    separatesOn 0 c [⟨x1, y1⟩, ⟨x1 + w1, y1⟩, ⟨x1 + w1, y1 + h1⟩, ⟨x1, y1 + h1⟩]
        [⟨x2, y2⟩, ⟨x2 + w2, y2⟩, ⟨x2 + w2, y2 + h2⟩, ⟨x2, y2 + h2⟩] =
      decide (y1 + h1 < y2 ∨ y2 + h2 < y1) := by
  unfold separatesOn
  rcases lt_or_gt_of_ne hc with hneg | hpos
  · rw [projectPoly_vert_neg hneg hh1, projectPoly_vert_neg hneg hh2]
    dsimp only
    apply decide_eq_decide.mpr
    rw [mul_lt_mul_left_of_neg hneg, mul_lt_mul_left_of_neg hneg]
    exact or_comm
  · rw [projectPoly_vert_pos hpos hh1, projectPoly_vert_pos hpos hh2]
    dsimp only
    apply decide_eq_decide.mpr
    rw [mul_lt_mul_left hpos, mul_lt_mul_left hpos]

/-- On axis-aligned rectangles with positive extents, the separating-axis
test of the source computes exactly closed overlap of the two bounding
boxes on both axes (touching counts as intersecting). -/
theorem isPolygonsIntersecting_rect {trig : ℚ → ℚ × ℚ} (h0 : trig 0 = (1, 0))
    {a b : LayoutElement} (ha : a.rot = 0) (hb : b.rot = 0)
    (hwa : 0 < a.width) (hha : 0 < a.height) (hwb : 0 < b.width) (hhb : 0 < b.height) :
    isPolygonsIntersecting (getCorners trig a) (getCorners trig b) =
      (decide (max a.x b.x ≤ min (a.x + a.width) (b.x + b.width)) &&
        decide (max a.y b.y ≤ min (a.y + a.height) (b.y + b.height))) := by
  rw [getCorners_rot0 h0 ha, getCorners_rot0 h0 hb]
  unfold isPolygonsIntersecting
  rw [if_neg (by simp)]
  rw [edgePairs_quad, edgePairs_quad]
  simp only [List.any_append, List.any_cons, List.any_nil, Bool.or_false]
  have hA1 :
      edgeSeparates
          [⟨a.x, a.y⟩, ⟨a.x + a.width, a.y⟩, ⟨a.x + a.width, a.y + a.height⟩,
            ⟨a.x, a.y + a.height⟩]
          [⟨b.x, b.y⟩, ⟨b.x + b.width, b.y⟩, ⟨b.x + b.width, b.y + b.height⟩,
            ⟨b.x, b.y + b.height⟩]
          (⟨a.x, a.y⟩, ⟨a.x + a.width, a.y⟩) =
        decide (a.y + a.height < b.y ∨ b.y + b.height < a.y) := by
    unfold edgeSeparates
    dsimp only
    rw [if_neg (by rintro ⟨-, h2⟩; simp at h2; linarith)]
    have e1 : a.y - a.y = 0 := sub_self _
    have e2 : a.x - (a.x + a.width) = -a.width := by ring
    rw [e1, e2]
    exact separatesOn_vert (by linarith) (le_of_lt hha) (le_of_lt hhb)
  have hA2 :
      edgeSeparates
          [⟨a.x, a.y⟩, ⟨a.x + a.width, a.y⟩, ⟨a.x + a.width, a.y + a.height⟩,
            ⟨a.x, a.y + a.height⟩]
          [⟨b.x, b.y⟩, ⟨b.x + b.width, b.y⟩, ⟨b.x + b.width, b.y + b.height⟩,
            ⟨b.x, b.y + b.height⟩]
          (⟨a.x + a.width, a.y⟩, ⟨a.x + a.width, a.y + a.height⟩) =
        decide (a.x + a.width < b.x ∨ b.x + b.width < a.x) := by
    unfold edgeSeparates
    dsimp only
    rw [if_neg (by rintro ⟨h1, -⟩; simp at h1; linarith)]
    have e1 : a.y + a.height - a.y = a.height := by ring
    have e2 : a.x + a.width - (a.x + a.width) = 0 := by ring
    rw [e1, e2]
    exact separatesOn_horiz (by linarith) (le_of_lt hwa) (le_of_lt hwb)
  have hA3 :
      edgeSeparates
          [⟨a.x, a.y⟩, ⟨a.x + a.width, a.y⟩, ⟨a.x + a.width, a.y + a.height⟩,
            ⟨a.x, a.y + a.height⟩]
          [⟨b.x, b.y⟩, ⟨b.x + b.width, b.y⟩, ⟨b.x + b.width, b.y + b.height⟩,
            ⟨b.x, b.y + b.height⟩]
          (⟨a.x + a.width, a.y + a.height⟩, ⟨a.x, a.y + a.height⟩) =
        decide (a.y + a.height < b.y ∨ b.y + b.height < a.y) := by
    unfold edgeSeparates
    dsimp only
    rw [if_neg (by rintro ⟨-, h2⟩; simp at h2; linarith)]
    have e1 : a.y + a.height - (a.y + a.height) = 0 := by ring
    have e2 : a.x + a.width - a.x = a.width := by ring
    rw [e1, e2]
    exact separatesOn_vert (by linarith) (le_of_lt hha) (le_of_lt hhb)
  have hA4 :
      edgeSeparates
          [⟨a.x, a.y⟩, ⟨a.x + a.width, a.y⟩, ⟨a.x + a.width, a.y + a.height⟩,
            ⟨a.x, a.y + a.height⟩]
          [⟨b.x, b.y⟩, ⟨b.x + b.width, b.y⟩, ⟨b.x + b.width, b.y + b.height⟩,
            ⟨b.x, b.y + b.height⟩]
          (⟨a.x, a.y + a.height⟩, ⟨a.x, a.y⟩) =
        decide (a.x + a.width < b.x ∨ b.x + b.width < a.x) := by
    unfold edgeSeparates
    dsimp only
    rw [if_neg (by rintro ⟨h1, -⟩; simp at h1; linarith)]
    have e1 : a.y - (a.y + a.height) = -a.height := by ring
    have e2 : a.x - a.x = 0 := sub_self _
    rw [e1, e2]
    exact separatesOn_horiz (by linarith) (le_of_lt hwa) (le_of_lt hwb)
  have hB1 :
      edgeSeparates
          [⟨a.x, a.y⟩, ⟨a.x + a.width, a.y⟩, ⟨a.x + a.width, a.y + a.height⟩,
            ⟨a.x, a.y + a.height⟩]
          [⟨b.x, b.y⟩, ⟨b.x + b.width, b.y⟩, ⟨b.x + b.width, b.y + b.height⟩,
            ⟨b.x, b.y + b.height⟩]
          (⟨b.x, b.y⟩, ⟨b.x + b.width, b.y⟩) =
        decide (a.y + a.height < b.y ∨ b.y + b.height < a.y) := by
    unfold edgeSeparates
    dsimp only
    rw [if_neg (by rintro ⟨-, h2⟩; simp at h2; linarith)]
    have e1 : b.y - b.y = 0 := sub_self _
    have e2 : b.x - (b.x + b.width) = -b.width := by ring
    rw [e1, e2]
    exact separatesOn_vert (by linarith) (le_of_lt hha) (le_of_lt hhb)
  have hB2 :
      edgeSeparates
          [⟨a.x, a.y⟩, ⟨a.x + a.width, a.y⟩, ⟨a.x + a.width, a.y + a.height⟩,
            ⟨a.x, a.y + a.height⟩]
          [⟨b.x, b.y⟩, ⟨b.x + b.width, b.y⟩, ⟨b.x + b.width, b.y + b.height⟩,
            ⟨b.x, b.y + b.height⟩]
          (⟨b.x + b.width, b.y⟩, ⟨b.x + b.width, b.y + b.height⟩) =
        decide (a.x + a.width < b.x ∨ b.x + b.width < a.x) := by
    unfold edgeSeparates
    dsimp only
    rw [if_neg (by rintro ⟨h1, -⟩; simp at h1; linarith)]
    have e1 : b.y + b.height - b.y = b.height := by ring
    have e2 : b.x + b.width - (b.x + b.width) = 0 := by ring
    rw [e1, e2]
    exact separatesOn_horiz (by linarith) (le_of_lt hwa) (le_of_lt hwb)
  have hB3 :
      edgeSeparates
          [⟨a.x, a.y⟩, ⟨a.x + a.width, a.y⟩, ⟨a.x + a.width, a.y + a.height⟩,
            ⟨a.x, a.y + a.height⟩]
          [⟨b.x, b.y⟩, ⟨b.x + b.width, b.y⟩, ⟨b.x + b.width, b.y + b.height⟩,
            ⟨b.x, b.y + b.height⟩]
          (⟨b.x + b.width, b.y + b.height⟩, ⟨b.x, b.y + b.height⟩) =
        decide (a.y + a.height < b.y ∨ b.y + b.height < a.y) := by
    unfold edgeSeparates
    dsimp only
    rw [if_neg (by rintro ⟨-, h2⟩; simp at h2; linarith)]
    have e1 : b.y + b.height - (b.y + b.height) = 0 := by ring
    have e2 : b.x + b.width - b.x = b.width := by ring
    rw [e1, e2]
    exact separatesOn_vert (by linarith) (le_of_lt hha) (le_of_lt hhb)
  have hB4 :
      edgeSeparates
          [⟨a.x, a.y⟩, ⟨a.x + a.width, a.y⟩, ⟨a.x + a.width, a.y + a.height⟩,
            ⟨a.x, a.y + a.height⟩]
          [⟨b.x, b.y⟩, ⟨b.x + b.width, b.y⟩, ⟨b.x + b.width, b.y + b.height⟩,
            ⟨b.x, b.y + b.height⟩]
          (⟨b.x, b.y + b.height⟩, ⟨b.x, b.y⟩) =
        decide (a.x + a.width < b.x ∨ b.x + b.width < a.x) := by
    unfold edgeSeparates
    dsimp only
    rw [if_neg (by rintro ⟨h1, -⟩; simp at h1; linarith)]
    have e1 : b.y - (b.y + b.height) = -b.height := by ring
    have e2 : b.x - b.x = 0 := sub_self _
    rw [e1, e2]
    exact separatesOn_horiz (by linarith) (le_of_lt hwa) (le_of_lt hwb)
  rw [hA1, hA2, hA3, hA4, hB1, hB2, hB3, hB4]
  have hXiff : (max a.x b.x ≤ min (a.x + a.width) (b.x + b.width)) ↔
      ¬(a.x + a.width < b.x ∨ b.x + b.width < a.x) := by
    rw [max_le_iff, le_min_iff, le_min_iff, not_or, not_lt, not_lt]
    constructor
    · rintro ⟨⟨-, h2⟩, h3, -⟩
      exact ⟨h3, h2⟩
    · rintro ⟨h1, h2⟩
      exact ⟨⟨by linarith, h2⟩, h1, by linarith⟩
  have hYiff : (max a.y b.y ≤ min (a.y + a.height) (b.y + b.height)) ↔
      ¬(a.y + a.height < b.y ∨ b.y + b.height < a.y) := by
    rw [max_le_iff, le_min_iff, le_min_iff, not_or, not_lt, not_lt]
    constructor
    · rintro ⟨⟨-, h2⟩, h3, -⟩
      exact ⟨h3, h2⟩
    · rintro ⟨h1, h2⟩
      exact ⟨⟨by linarith, h2⟩, h1, by linarith⟩
  rw [decide_eq_decide.mpr hXiff, decide_eq_decide.mpr hYiff, decide_not, decide_not]
  rcases hdx : decide (a.x + a.width < b.x ∨ b.x + b.width < a.x) with _ | _ <;>
    rcases hdy : decide (a.y + a.height < b.y ∨ b.y + b.height < a.y) with _ | _ <;>
    simp [hdx, hdy]

/-! ## Claim C5 -/

/-- Claim C5, amended: `isTouching` is exactly the polygon (SAT)
intersection test — there is no expanded-bounding-box margin clause — and
consequently two axis-aligned rectangles separated by any positive gap,
in particular one smaller than the 2-unit margin the spec describes, do
not satisfy `isTouching`. -/
theorem claim_C5_amended :
    (∀ (trig : ℚ → ℚ × ℚ) (a b : LayoutElement),
      isTouching trig a b = isPolygonsIntersecting (getCorners trig a) (getCorners trig b)) ∧
      (∀ trig : ℚ → ℚ × ℚ, trig 0 = (1, 0) → ∀ a b : LayoutElement,
        a.rot = 0 → b.rot = 0 → 0 < a.width → 0 < a.height → 0 < b.width → 0 < b.height →
        a.x + a.width < b.x → isTouching trig a b = false) := by
  constructor
  · intro trig a b
    rfl
  · intro trig h0 a b ha hb hwa hha hwb hhb hgap
    unfold isTouching
    rw [isPolygonsIntersecting_rect h0 ha hb hwa hha hwb hhb]
    have hnot : ¬(max a.x b.x ≤ min (a.x + a.width) (b.x + b.width)) := by
      intro hle
      have h1 : b.x ≤ max a.x b.x := le_max_right _ _
      have h2 : min (a.x + a.width) (b.x + b.width) ≤ a.x + a.width := min_le_left _ _
      linarith
    simp [hnot]

/-- Claim C5, witness for the amended theorem at the 1-unit-gap pair. -/
theorem claim_C5_witness :
    gapA.x + gapA.width < gapB.x ∧ isTouching rightAngleTrig gapA gapB = false :=
  ⟨by decide,
    claim_C5_amended.2 rightAngleTrig (by decide) gapA gapB (by decide) (by decide) (by decide)
      (by decide) (by decide) (by decide) (by decide)⟩

/-- Claim C5, counterexample to the claim as stated: the boxes of `gapA`
and `gapB`, each expanded by the 2-unit margin, overlap on both axes (the
gap is 1 < 2), yet `isTouching` returns false — the margin clause of the
spec is absent from the code. -/
theorem claim_C5_counterexample :
    (0 < min (gapA.x + gapA.width + 2) (gapB.x + gapB.width + 2) -
        max (gapA.x - 2) (gapB.x - 2) ∧
      0 < min (gapA.y + gapA.height + 2) (gapB.y + gapB.height + 2) -
        max (gapA.y - 2) (gapB.y - 2)) ∧
      isTouching rightAngleTrig gapA gapB = false := by
  refine ⟨by decide, by decide⟩

/-! ## Claims C3, C4 and C7: the overlap pass -/

theorem isConnectorPair_symm {t1 t2 : ElementType} :
    isConnectorPair t1 t2 = isConnectorPair t2 t1 := by
  unfold isConnectorPair
  exact Bool.or_comm _ _

theorem getIntersectionBox_comm (r1 r2 : LayoutElement) :
    getIntersectionBox r1 r2 = getIntersectionBox r2 r1 := by
  unfold getIntersectionBox
  rw [max_comm r2.x r1.x, max_comm r2.y r1.y, min_comm (r2.x + r2.width) (r1.x + r1.width),
    min_comm (r2.y + r2.height) (r1.y + r1.height)]

/-- A violation of overlap type can only come from the overlap pass. -/
theorem overlapPass_of_type {trig : ℚ → ℚ × ℚ} {W H : ℚ} {els : List LayoutElement}
    {v : ConstraintViolation} (hv : v ∈ validateElements trig W H els)
    (ht : v.type = ViolationType.overlap) : v ∈ overlapPass trig els := by
  rcases mem_validateElements.mp hv with h | h | h | h | h | h | h
  · rcases mem_boundsPass.mp h with ⟨e, -, hb⟩
    rcases boundsCheck_eq_some_iff.mp hb with ⟨-, -, rfl⟩
    cases ht
  · exact h
  · rcases placementPass_shape h with ⟨-, hp⟩
    rw [hp] at ht
    cases ht
  · rcases mem_gatePass.mp h with ⟨g, -, -, hg⟩
    rcases gateCheck_eq_some_iff.mp hg with ⟨-, rfl⟩
    cases ht
  · rcases mem_rampPass.mp h with ⟨r, -, -, hr⟩
    rcases rampCheck_eq_some_iff.mp hr with ⟨-, rfl⟩
    cases ht
  · rcases mem_graphPass.mp h with ⟨-, ent, -, -, -, -, rfl⟩
    cases ht
  · rcases mem_globalPass.mp h with ⟨-, rfl⟩ | ⟨-, rfl⟩ <;> cases ht

/-- Emission half of the overlap pass, shared by the claims below: a
solid ordered pair in the same bucket that survives the rule table, the
distance pre-filter and the exact test contributes its violation. -/
theorem overlap_violation_mem {trig : ℚ → ℚ × ℚ} {W H : ℚ} {els : List LayoutElement}
    {a b : LayoutElement} (ha : a ∈ els) (hb : b ∈ els) (hlt : strLt a.id b.id = true)
    (hsa : isSolid a.type = true) (hsb : isSolid b.type = true)
    (hperm : permittedOverlap a b = false) (hconn : connectorExempt a b = false)
    (hkey : ∃ k, k ∈ getKeysForElement 100 a ∧ k ∈ getKeysForElement 100 b)
    (hdist : distFilter a b = true)
    (hsat : isPolygonsIntersecting (getCorners trig a) (getCorners trig b) = true) :
    (⟨a.id, some b.id, .overlap, typeName a.type ++ " overlaps with " ++ typeName b.type⟩ :
        ConstraintViolation) ∈ validateLayout trig (some ⟨W, H, some els⟩) := by
  refine mem_validateElements.mpr (Or.inr (Or.inl (mem_overlapPass.mpr
    ⟨a, ha, hsa, b, ?_, overlapCheck_eq_some_iff.mpr ⟨hlt, hsb, hperm, hconn, hdist, hsat, rfl⟩⟩)))
  exact mem_getPotentialCollisions.mpr ⟨hb, fun h => strLt_ne hlt h.symm, hkey⟩

/-- Claim C4, amended: for a pair of solid elements of the layout with
strictly ordered ids that share a grid cell and are not exempted by the
rule table or the connector clause, an intersection of the rotated
polygons is reported as an overlap violation naming both ids — but only
provided the distance pre-filter passes.  The pre-filter is not
conservative: it compares the top-left-corner distance against the sum of
the larger extents, and can discard genuinely overlapping pairs (see the
counterexample), so the claim that it only skips non-overlapping pairs is
false. -/
theorem claim_C4_amended (trig : ℚ → ℚ × ℚ) (W H : ℚ) (els : List LayoutElement)
    (a b : LayoutElement) (ha : a ∈ els) (hb : b ∈ els) (hlt : strLt a.id b.id = true)
    (hsa : isSolid a.type = true) (hsb : isSolid b.type = true)
    (hperm : permittedOverlap a b = false) (hconn : connectorExempt a b = false)
    (hkey : ∃ k, k ∈ getKeysForElement 100 a ∧ k ∈ getKeysForElement 100 b)
    (hdist : distFilter a b = true)
    (hsat : isPolygonsIntersecting (getCorners trig a) (getCorners trig b) = true) :
    (⟨a.id, some b.id, .overlap, typeName a.type ++ " overlaps with " ++ typeName b.type⟩ :
        ConstraintViolation) ∈ validateLayout trig (some ⟨W, H, some els⟩) :=
  overlap_violation_mem ha hb hlt hsa hsb hperm hconn hkey hdist hsat

/-- Claim C4, witness for the amended theorem at the touching pillar
pair, where the distance pre-filter passes. -/
theorem claim_C4_witness :
    distFilter pillarA pillarB = true ∧
      (⟨"a", some "b", .overlap, "pillar overlaps with pillar"⟩ : ConstraintViolation) ∈
        validateLayout rightAngleTrig (some ⟨800, 600, some [pillarA, pillarB]⟩) :=
  ⟨by decide,
    claim_C4_amended rightAngleTrig 800 600 [pillarA, pillarB] pillarA pillarB (by decide)
      (by decide) (by decide) (by decide) (by decide) (by decide) (by decide)
      ⟨((0 : ℤ), (0 : ℤ)), by decide, by decide⟩ (by decide) (by decide)⟩

/-- Claim C4, counterexample to the claim as stated: `pillarA` and
`pillarC` are solid, ordered, cell-sharing, non-exempt, and their
polygons genuinely intersect, yet no overlap violation is emitted — the
distance pre-filter discards the pair although it truly overlaps. -/
theorem claim_C4_counterexample :
    isPolygonsIntersecting (getCorners rightAngleTrig pillarA) (getCorners rightAngleTrig pillarC)
        = true ∧
      pillarC ∈ getPotentialCollisions 100 [pillarA, pillarC] pillarA ∧
      strLt pillarA.id pillarC.id = true ∧
      permittedOverlap pillarA pillarC = false ∧
      connectorExempt pillarA pillarC = false ∧
      distFilter pillarA pillarC = false ∧
      (validateLayout rightAngleTrig (some ⟨800, 600, some [pillarA, pillarC]⟩)).all
        (fun v => decide (v.type ≠ ViolationType.overlap)) = true := by
  refine ⟨by decide, by decide, by decide, by decide, by decide, by decide, by decide⟩

/-- Claim C3, amended: two axis-aligned solid rectangles of the layout
that share exactly one edge (zero-depth contact, positive-length shared
segment) always satisfy `isTouching`; but the overlap pass, far from
staying silent on them, emits an overlap violation for the pair whenever
the ids are ordered, the rule table does not exempt the pair and the
distance pre-filter passes: the separating-axis test counts zero-depth
contact as intersection and no epsilon filter is applied (the
intersection box of an edge-sharing pair is empty, so even the connector
clause cannot exempt it). -/
theorem claim_C3_amended (trig : ℚ → ℚ × ℚ) (W H : ℚ) (els : List LayoutElement)
    (a b : LayoutElement) (h0 : trig 0 = (1, 0)) (ha : a ∈ els) (hb : b ∈ els)
    (hlt : strLt a.id b.id = true) (hsa : isSolid a.type = true) (hsb : isSolid b.type = true)
    (hperm : permittedOverlap a b = false)
    (hra : a.rot = 0) (hrb : b.rot = 0)
    (hwa : 0 < a.width) (hha : 0 < a.height) (hwb : 0 < b.width) (hhb : 0 < b.height)
    (hedge : ((b.x = a.x + a.width ∨ a.x = b.x + b.width) ∧
        max a.y b.y < min (a.y + a.height) (b.y + b.height)) ∨
      ((b.y = a.y + a.height ∨ a.y = b.y + b.height) ∧
        max a.x b.x < min (a.x + a.width) (b.x + b.width)))
    (hdist : distFilter a b = true) :
    isTouching trig a b = true ∧
      (⟨a.id, some b.id, .overlap, typeName a.type ++ " overlaps with " ++ typeName b.type⟩ :
        ConstraintViolation) ∈ validateLayout trig (some ⟨W, H, some els⟩) := by
  have hx : max a.x b.x ≤ min (a.x + a.width) (b.x + b.width) := by
    rcases hedge with ⟨hc | hc, -⟩ | ⟨-, hstrict⟩
    · exact max_le (le_min (by linarith) (by linarith)) (le_min (by linarith) (by linarith))
    · exact max_le (le_min (by linarith) (by linarith)) (le_min (by linarith) (by linarith))
    · exact le_of_lt hstrict
  have hy : max a.y b.y ≤ min (a.y + a.height) (b.y + b.height) := by
    rcases hedge with ⟨-, hstrict⟩ | ⟨hc | hc, -⟩
    · exact le_of_lt hstrict
    · exact max_le (le_min (by linarith) (by linarith)) (le_min (by linarith) (by linarith))
    · exact max_le (le_min (by linarith) (by linarith)) (le_min (by linarith) (by linarith))
  have hsat : isPolygonsIntersecting (getCorners trig a) (getCorners trig b) = true := by
    rw [isPolygonsIntersecting_rect h0 hra hrb hwa hha hwb hhb]
    simp [hx, hy]
  have hbox : getIntersectionBox a b = none := by
    unfold getIntersectionBox
    rw [if_neg]
    rcases hedge with ⟨hc | hc, -⟩ | ⟨hc | hc, -⟩
    · rintro ⟨hlt1, -⟩
      have h1 : min (a.x + a.width) (b.x + b.width) ≤ a.x + a.width := min_le_left _ _
      have h2 : b.x ≤ max a.x b.x := le_max_right _ _
      linarith
    · rintro ⟨hlt1, -⟩
      have h1 : min (a.x + a.width) (b.x + b.width) ≤ b.x + b.width := min_le_right _ _
      have h2 : a.x ≤ max a.x b.x := le_max_left _ _
      linarith
    · rintro ⟨-, hlt2⟩
      have h1 : min (a.y + a.height) (b.y + b.height) ≤ a.y + a.height := min_le_left _ _
      have h2 : b.y ≤ max a.y b.y := le_max_right _ _
      linarith
    · rintro ⟨-, hlt2⟩
      have h1 : min (a.y + a.height) (b.y + b.height) ≤ b.y + b.height := min_le_right _ _
      have h2 : a.y ≤ max a.y b.y := le_max_left _ _
      linarith
  have hconn : connectorExempt a b = false := by
    unfold connectorExempt
    rw [hbox]
    simp
  exact ⟨hsat,
    overlap_violation_mem ha hb hlt hsa hsb hperm hconn
      (common_key_of_aabb_overlap (by norm_num) hx hy) hdist hsat⟩

/-- Claim C3, witness for the amended theorem at the touching pillar
pair. -/
theorem claim_C3_witness :
    isTouching rightAngleTrig pillarA pillarB = true ∧
      (⟨"a", some "b", .overlap, "pillar overlaps with pillar"⟩ : ConstraintViolation) ∈
        validateLayout rightAngleTrig (some ⟨800, 600, some [pillarA, pillarB]⟩) :=
  claim_C3_amended rightAngleTrig 800 600 [pillarA, pillarB] pillarA pillarB (by decide)
    (by decide) (by decide) (by decide) (by decide) (by decide) (by decide) (by decide)
    (by decide) (by decide) (by decide) (by decide) (by decide)
    (Or.inl ⟨Or.inl (by decide), by decide⟩) (by decide)

/-- Claim C3, counterexample to the claim as stated: the two pillars
share exactly the edge x = 10 with zero-depth overlap, `isTouching` holds
as the claim says, but `validateLayout` does emit an overlap violation
for the pair, contradicting the claim that no overlap violation is
produced. -/
theorem claim_C3_counterexample :
    isTouching rightAngleTrig pillarA pillarB = true ∧
      (validateLayout rightAngleTrig (some ⟨800, 600, some [pillarA, pillarB]⟩)).any
        (fun v => decide (v.elementId = "a" ∧ v.targetId = some "b" ∧
          v.type = ViolationType.overlap)) = true := by
  refine ⟨by decide, by decide⟩

/-- Claim C7: a ramp paired with a road, entrance or exit whose
intersection box exists and is shallower than 2 units in either dimension
is a valid tight connection: no overlap violation naming the two ids, in
either orientation, is ever emitted (layout ids assumed unique so that
ids determine elements). -/
theorem claim_C7_connector_tolerance (trig : ℚ → ℚ × ℚ) (W H : ℚ) (els : List LayoutElement)
    (a b : LayoutElement) (hnd : (els.map LayoutElement.id).Nodup)
    (ha : a ∈ els) (hb : b ∈ els)
    (hpair : isConnectorPair a.type b.type = true)
    (hbox : ∃ box, getIntersectionBox a b = some box ∧ (box.width < 2 ∨ box.height < 2)) :
    ∀ v ∈ validateLayout trig (some ⟨W, H, some els⟩),
      ¬(v.type = ViolationType.overlap ∧
        ((v.elementId = a.id ∧ v.targetId = some b.id) ∨
          (v.elementId = b.id ∧ v.targetId = some a.id))) := by
  intro v hv hcontra
  obtain ⟨htype, hids⟩ := hcontra
  have hov := overlapPass_of_type hv htype
  rcases mem_overlapPass.mp hov with ⟨el1, hel1, -, el2, hel2c, ho⟩
  have hel2 : el2 ∈ els := (mem_getPotentialCollisions.mp hel2c).1
  rcases overlapCheck_eq_some_iff.mp ho with ⟨-, -, -, hce, -, -, rfl⟩
  rcases hbox with ⟨box, hbeq, hbw⟩
  have hexempt : connectorExempt a b = true := by
    unfold connectorExempt
    rw [hpair, hbeq]
    rcases hbw with h | h
    · simp only [Bool.true_and]
      exact decide_eq_true (Or.inl (le_of_lt h))
    · simp only [Bool.true_and]
      exact decide_eq_true (Or.inr (le_of_lt h))
  rcases hids with ⟨h1, h2⟩ | ⟨h1, h2⟩
  · have ea : el1 = a := List.inj_on_of_nodup_map hnd hel1 ha h1
    have eb : el2 = b := List.inj_on_of_nodup_map hnd hel2 hb (Option.some.inj h2)
    rw [ea, eb] at hce
    rw [hce] at hexempt
    cases hexempt
  · have ea : el1 = b := List.inj_on_of_nodup_map hnd hel1 hb h1
    have eb : el2 = a := List.inj_on_of_nodup_map hnd hel2 ha (Option.some.inj h2)
    have hexempt2 : connectorExempt b a = true := by
      unfold connectorExempt at hexempt ⊢
      rw [isConnectorPair_symm, getIntersectionBox_comm b a]
      exact hexempt
    rw [ea, eb] at hce
    rw [hce] at hexempt2
    cases hexempt2

/-- Claim C7, witness at a ramp overlapping a road by exactly 1 unit. -/
theorem claim_C7_witness :
    (∃ box, getIntersectionBox rampEx roadEx = some box ∧ (box.width < 2 ∨ box.height < 2)) ∧
      ¬((⟨"global", none, .connectivity_error,
            "Must have at least one Entrance."⟩ : ConstraintViolation).type =
              ViolationType.overlap ∧
          (((⟨"global", none, .connectivity_error,
              "Must have at least one Entrance."⟩ : ConstraintViolation).elementId = rampEx.id ∧
            (⟨"global", none, .connectivity_error,
              "Must have at least one Entrance."⟩ : ConstraintViolation).targetId =
                some roadEx.id) ∨
            ((⟨"global", none, .connectivity_error,
              "Must have at least one Entrance."⟩ : ConstraintViolation).elementId = roadEx.id ∧
            (⟨"global", none, .connectivity_error,
              "Must have at least one Entrance."⟩ : ConstraintViolation).targetId =
                some rampEx.id))) :=
  ⟨⟨⟨0, 59, 40, 1⟩, by decide, Or.inr (by decide)⟩,
    claim_C7_connector_tolerance rightAngleTrig 800 600 [rampEx, roadEx] rampEx roadEx
      (by decide) (by decide) (by decide) (by decide)
      ⟨⟨0, 59, 40, 1⟩, by decide, Or.inr (by decide)⟩ _ (by decide)⟩

/-! ## Claim C9: permutation invariance of the pipeline

The remaining lemmas show that reordering the element collection only
permutes the violation list.  The broad-phase candidate lists and the
adjacency map do change order internally, but every decision of the
pipeline depends on them only through membership, which the lemmas below
make explicit. -/

theorem bool_eq_of_iff {a b : Bool} (h : a = true ↔ b = true) : a = b := by
  cases a <;> cases b <;> simp_all

/-- Candidate membership is stable under permutation of the layout. -/
theorem mem_cands_perm {els els' : List LayoutElement} (hperm : els.Perm els')
    (el c : LayoutElement) :
    c ∈ getPotentialCollisions 100 els el ↔ c ∈ getPotentialCollisions 100 els' el := by
  rw [mem_getPotentialCollisions, mem_getPotentialCollisions, hperm.mem_iff]

/-- Any existential scan over the filtered candidates of an element is
stable under permutation of the layout. -/
theorem any_cands_congr {els els' : List LayoutElement} (hperm : els.Perm els')
    (el : LayoutElement) (p q : LayoutElement → Bool) :
    ((getPotentialCollisions 100 els el).filter p).any q =
      ((getPotentialCollisions 100 els' el).filter p).any q := by
  apply bool_eq_of_iff
  simp only [List.any_eq_true, List.mem_filter]
  constructor
  · rintro ⟨x, ⟨hx, hp⟩, hq⟩
    exact ⟨x, ⟨(mem_cands_perm hperm el x).mp hx, hp⟩, hq⟩
  · rintro ⟨x, ⟨hx, hp⟩, hq⟩
    exact ⟨x, ⟨(mem_cands_perm hperm el x).mpr hx, hp⟩, hq⟩

theorem placementCheck_congr {els els' : List LayoutElement} (hperm : els.Perm els')
    (trig : ℚ → ℚ × ℚ) (item : LayoutElement) :
    placementCheck trig els item = placementCheck trig els' item := by
  unfold placementCheck
  simp only [any_cands_congr hperm item (fun c => decide (c.type = .ROAD))
      (fun road => isOverlapping trig road item 2),
    any_cands_congr hperm item (fun c => decide (c.type = .ROAD))
      (fun road => isOverlapping trig road item 0)]

theorem gateCheck_congr {els els' : List LayoutElement} (hperm : els.Perm els')
    (trig : ℚ → ℚ × ℚ) (gate : LayoutElement) :
    gateCheck trig els gate = gateCheck trig els' gate := by
  unfold gateCheck
  simp only [any_cands_congr hperm gate (fun c => decide (c.type = .RAMP))
    (fun r => isTouching trig r gate)]

theorem rampCheck_congr {els els' : List LayoutElement} (hperm : els.Perm els')
    (trig : ℚ → ℚ × ℚ) (ramp : LayoutElement) :
    rampCheck trig els ramp = rampCheck trig els' ramp := by
  unfold rampCheck
  simp only [any_cands_congr hperm ramp (fun c => decide (c.type = .ROAD))
    (fun road => isTouching trig road ramp)]

theorem boundsPass_perm {els els' : List LayoutElement} (hperm : els.Perm els')
    (trig : ℚ → ℚ × ℚ) (W H : ℚ) :
    (boundsPass trig W H els).Perm (boundsPass trig W H els') :=
  hperm.filterMap _

theorem placementPass_perm {els els' : List LayoutElement} (hperm : els.Perm els')
    (trig : ℚ → ℚ × ℚ) :
    (placementPass trig els).Perm (placementPass trig els') := by
  unfold placementPass
  have h1 : (els.flatMap (placementCheck trig els)).Perm
      (els'.flatMap (placementCheck trig els)) := hperm.flatMap_right _
  have h2 : els'.flatMap (placementCheck trig els) = els'.flatMap (placementCheck trig els') :=
    List.flatMap_congr (fun x _ => placementCheck_congr hperm trig x)
  rw [h2] at h1
  exact h1

theorem gatePass_perm {els els' : List LayoutElement} (hperm : els.Perm els')
    (trig : ℚ → ℚ × ℚ) :
    (gatePass trig els).Perm (gatePass trig els') := by
  unfold gatePass
  have h1 : ((els.filter (fun e => decide (e.type = .ENTRANCE ∨ e.type = .EXIT))).filterMap
      (gateCheck trig els)).Perm
      ((els'.filter (fun e => decide (e.type = .ENTRANCE ∨ e.type = .EXIT))).filterMap
        (gateCheck trig els)) := (hperm.filter _).filterMap _
  have h2 : (els'.filter (fun e => decide (e.type = .ENTRANCE ∨ e.type = .EXIT))).filterMap
        (gateCheck trig els) =
      (els'.filter (fun e => decide (e.type = .ENTRANCE ∨ e.type = .EXIT))).filterMap
        (gateCheck trig els') :=
    List.filterMap_congr (fun x _ => gateCheck_congr hperm trig x)
  rw [h2] at h1
  exact h1

theorem rampPass_perm {els els' : List LayoutElement} (hperm : els.Perm els')
    (trig : ℚ → ℚ × ℚ) :
    (rampPass trig els).Perm (rampPass trig els') := by
  unfold rampPass
  have h1 : ((els.filter (fun e => decide (e.type = .RAMP))).filterMap
      (rampCheck trig els)).Perm
      ((els'.filter (fun e => decide (e.type = .RAMP))).filterMap (rampCheck trig els)) :=
    (hperm.filter _).filterMap _
  have h2 : (els'.filter (fun e => decide (e.type = .RAMP))).filterMap (rampCheck trig els) =
      (els'.filter (fun e => decide (e.type = .RAMP))).filterMap (rampCheck trig els') :=
    List.filterMap_congr (fun x _ => rampCheck_congr hperm trig x)
  rw [h2] at h1
  exact h1

theorem globalPass_congr {els els' : List LayoutElement} (hperm : els.Perm els') :
    globalPass els = globalPass els' := by
  unfold globalPass
  rw [(hperm.filter (fun e => decide (e.type = .ENTRANCE))).length_eq,
    (hperm.filter (fun e => decide (e.type = .EXIT))).length_eq]

/-- Nodup of a `filterMap` whose outputs carry an injective tag of their
input. -/
theorem nodup_filterMap_key {α β γ : Type} (g : α → Option γ) (key : α → β) (tag : γ → β) :
    ∀ l : List α, (∀ a v, g a = some v → tag v = key a) → (l.map key).Nodup →
      (l.filterMap g).Nodup := by
  intro l
  induction l with
  | nil => intro _ _; simp
  | cons a l ih =>
    intro hg hinj
    rw [List.map_cons, List.nodup_cons] at hinj
    rw [List.filterMap_cons]
    rcases hga : g a with _ | v
    · exact ih hg hinj.2
    · rw [List.nodup_cons]
      refine ⟨?_, ih hg hinj.2⟩
      intro hvmem
      rcases List.mem_filterMap.mp hvmem with ⟨a', ha', hga'⟩
      have h1 : tag v = key a := hg a v hga
      have h2 : tag v = key a' := hg a' v hga'
      exact hinj.1 (h1 ▸ h2 ▸ List.mem_map_of_mem key ha')

theorem nodup_getPotentialCollisions (cs : ℚ) (els : List LayoutElement)
    (el : LayoutElement) : (getPotentialCollisions cs els el).Nodup :=
  nodup_dedupFirst _

/-- Unique layout ids make the overlap pass duplicate-free: within one
first element the candidates carry distinct target ids, and across first
elements the subject ids differ. -/
theorem overlapPass_nodup {trig : ℚ → ℚ × ℚ} {els : List LayoutElement}
    (hnd : (els.map LayoutElement.id).Nodup) : (overlapPass trig els).Nodup := by
  unfold overlapPass
  rw [List.nodup_flatMap]
  constructor
  · intro el1 hel1
    apply nodup_filterMap_key (overlapCheck trig el1) (fun e => (some e.id : Option String))
      (fun v => v.targetId)
    · intro a v hv
      rcases overlapCheck_eq_some_iff.mp hv with ⟨-, -, -, -, -, -, rfl⟩
      rfl
    · have hc : (getPotentialCollisions 100 els el1).Nodup :=
        nodup_getPotentialCollisions _ _ _
      have hmapid : ((getPotentialCollisions 100 els el1).map LayoutElement.id).Nodup := by
        apply List.Nodup.map_on ?_ hc
        intro x hx y hy hxy
        exact List.inj_on_of_nodup_map hnd (mem_getPotentialCollisions.mp hx).1
          (mem_getPotentialCollisions.mp hy).1 hxy
      have : ((getPotentialCollisions 100 els el1).map
          (fun e => (some e.id : Option String))) =
          ((getPotentialCollisions 100 els el1).map LayoutElement.id).map some := by
        rw [List.map_map]
        rfl
      rw [this]
      exact hmapid.map (Option.some_injective String)
  · have hidsolid : ((els.filter (fun e => isSolid e.type)).map LayoutElement.id).Nodup :=
      ((List.filter_sublist els).map LayoutElement.id).nodup hnd
    have hpw := (List.pairwise_map.mp hidsolid)
    refine hpw.imp ?_
    intro x y hxy
    intro v hvx hvy
    rcases List.mem_filterMap.mp hvx with ⟨a, -, hga⟩
    rcases overlapCheck_eq_some_iff.mp hga with ⟨-, -, -, -, -, -, rfl⟩
    rcases List.mem_filterMap.mp hvy with ⟨b, -, hgb⟩
    rcases overlapCheck_eq_some_iff.mp hgb with ⟨-, -, -, -, -, -, hvb⟩
    exact hxy (congrArg ConstraintViolation.elementId hvb)

theorem mem_overlapPass_mono {els els' : List LayoutElement} (hperm : els.Perm els')
    {trig : ℚ → ℚ × ℚ} {v : ConstraintViolation} (h : v ∈ overlapPass trig els) :
    v ∈ overlapPass trig els' := by
  rcases mem_overlapPass.mp h with ⟨el1, h1, hs, el2, h2, ho⟩
  exact mem_overlapPass.mpr
    ⟨el1, hperm.mem_iff.mp h1, hs, el2, (mem_cands_perm hperm el1 el2).mp h2, ho⟩

theorem overlapPass_perm {els els' : List LayoutElement} (hperm : els.Perm els')
    (hnd : (els.map LayoutElement.id).Nodup) (trig : ℚ → ℚ × ℚ) :
    (overlapPass trig els).Perm (overlapPass trig els') := by
  have hnd' : (els'.map LayoutElement.id).Nodup := ((hperm.map _).nodup_iff).mp hnd
  refine (List.perm_ext_iff_of_nodup (overlapPass_nodup hnd) (overlapPass_nodup hnd')).mpr ?_
  intro v
  exact ⟨mem_overlapPass_mono hperm, mem_overlapPass_mono hperm.symm⟩

/-! ### The adjacency association list -/

theorem keys_pushAdj (adj : Adj) (k x : String) :
    (pushAdj adj k x).map Prod.fst = adj.map Prod.fst := by
  unfold pushAdj
  rw [List.map_map]
  apply List.map_congr_left
  intro p _
  by_cases hp : p.1 = k <;> simp [hp]

theorem mem_lookupAdj_pushAdj {k x u y : String} :
    ∀ adj : Adj, y ∈ lookupAdj (pushAdj adj k x) u ↔
      y ∈ lookupAdj adj u ∨ (u = k ∧ y = x ∧ u ∈ adj.map Prod.fst) := by
  intro adj
  induction adj with
  | nil => simp [pushAdj, lookupAdj]
  | cons p adj ih =>
    by_cases hpu : p.1 = u
    · by_cases hpk : p.1 = k
      · unfold pushAdj lookupAdj
        simp only [List.map_cons, if_pos hpk]
        rw [List.find?_cons_of_pos _ (by simpa using hpu), List.find?_cons_of_pos _
          (by simpa using hpu)]
        simp only [Option.map_some', Option.getD_some, List.mem_append, List.mem_singleton,
          List.map_cons, List.mem_cons]
        constructor
        · rintro (h | h)
          · exact Or.inl h
          · rcases h with rfl | h
            · exact Or.inr ⟨by rw [← hpu, hpk], rfl, Or.inl hpu.symm⟩
            · simp at h
        · rintro (h | ⟨h1, h2, -⟩)
          · exact Or.inl h
          · exact Or.inr (Or.inl h2)
      · unfold pushAdj lookupAdj
        simp only [List.map_cons, if_neg hpk]
        rw [List.find?_cons_of_pos _ (by simpa using hpu), List.find?_cons_of_pos _
          (by simpa using hpu)]
        simp only [Option.map_some', Option.getD_some, List.map_cons, List.mem_cons]
        constructor
        · intro h
          exact Or.inl h
        · rintro (h | ⟨h1, -, -⟩)
          · exact h
          · exact absurd (h1 ▸ hpu) hpk
    · by_cases hpk : p.1 = k
      · unfold pushAdj lookupAdj
        unfold pushAdj lookupAdj at ih
        simp only [List.map_cons, if_pos hpk]
        rw [List.find?_cons_of_neg _ (by simpa using hpu), List.find?_cons_of_neg _
          (by simpa using hpu)]
        rw [ih]
        simp only [List.map_cons, List.mem_cons]
        constructor
        · rintro (h | ⟨h1, h2, h3⟩)
          · exact Or.inl h
          · exact Or.inr ⟨h1, h2, Or.inr h3⟩
        · rintro (h | ⟨h1, h2, hp | h3⟩)
          · exact Or.inl h
          · exact absurd hp.symm hpu
          · exact Or.inr ⟨h1, h2, h3⟩
      · unfold pushAdj lookupAdj
        unfold pushAdj lookupAdj at ih
        simp only [List.map_cons, if_neg hpk]
        rw [List.find?_cons_of_neg _ (by simpa using hpu), List.find?_cons_of_neg _
          (by simpa using hpu)]
        rw [ih]
        simp only [List.map_cons, List.mem_cons]
        constructor
        · rintro (h | ⟨h1, h2, h3⟩)
          · exact Or.inl h
          · exact Or.inr ⟨h1, h2, Or.inr h3⟩
        · rintro (h | ⟨h1, h2, hp | h3⟩)
          · exact Or.inl h
          · exact absurd hp.symm hpu
          · exact Or.inr ⟨h1, h2, h3⟩

theorem snd_adjInitAux :
    ∀ (navs : List LayoutElement) (acc : Adj), (∀ p ∈ acc, p.2 = ([] : List String)) →
      ∀ p ∈ navs.foldl (fun adj el => setAdj adj el.id []) acc, p.2 = [] := by
  intro navs
  induction navs with
  | nil => intro acc h; exact h
  | cons el navs ih =>
    intro acc h
    simp only [List.foldl_cons]
    apply ih
    intro p hp
    unfold setAdj at hp
    split_ifs at hp with hk
    · rcases List.mem_map.mp hp with ⟨q, hq, rfl⟩
      by_cases hq1 : q.1 = el.id
      · simp [hq1]
      · simp only [if_neg hq1]
        exact h q hq
    · rcases List.mem_append.mp hp with h1 | h1
      · exact h p h1
      · rcases List.mem_singleton.mp h1 with rfl
        rfl

theorem lookupAdj_adjInit (navs : List LayoutElement) (u : String) :
    lookupAdj (adjInit navs) u = [] := by
  unfold lookupAdj
  rcases hf : (adjInit navs).find? (fun p => p.1 = u) with _ | p
  · rw [hf]
    rfl
  · rw [hf]
    simp only [Option.map_some', Option.getD_some]
    exact snd_adjInitAux navs [] (by simp) p (List.mem_of_find?_eq_some hf)

theorem keys_setAdj (adj : Adj) (k : String) (v : List String) (u : String) :
    u ∈ (setAdj adj k v).map Prod.fst ↔ u ∈ adj.map Prod.fst ∨ u = k := by
  unfold setAdj
  split_ifs with hk
  · rw [List.map_map]
    have : (Prod.fst ∘ fun p : String × List String => if p.1 = k then (k, v) else p) =
        Prod.fst := by
      funext p
      by_cases hp : p.1 = k <;> simp [hp]
    rw [this]
    constructor
    · exact Or.inl
    · rintro (h | rfl)
      · exact h
      · rcases List.any_eq_true.mp hk with ⟨q, hq, hq1⟩
        exact List.mem_map.mpr ⟨q, hq, by simpa using hq1⟩
  · simp [List.mem_append]

theorem keys_adjInitAux :
    ∀ (navs : List LayoutElement) (acc : Adj) (u : String),
      u ∈ ((navs.foldl (fun adj el => setAdj adj el.id []) acc).map Prod.fst) ↔
        u ∈ acc.map Prod.fst ∨ u ∈ navs.map LayoutElement.id := by
  intro navs
  induction navs with
  | nil => intro acc u; simp
  | cons el navs ih =>
    intro acc u
    simp only [List.foldl_cons, List.map_cons, List.mem_cons]
    rw [ih, keys_setAdj]
    tauto

theorem keys_adjInit (navs : List LayoutElement) (u : String) :
    u ∈ (adjInit navs).map Prod.fst ↔ u ∈ navs.map LayoutElement.id := by
  unfold adjInit
  rw [keys_adjInitAux]
  simp

theorem keys_edgeStep (trig : ℚ → ℚ × ℚ) (el1 : LayoutElement) (adj : Adj)
    (el2 : LayoutElement) :
    (edgeStep trig el1 adj el2).map Prod.fst = adj.map Prod.fst := by
  unfold edgeStep
  split_ifs with h
  · rw [keys_pushAdj, keys_pushAdj]
  · rfl

theorem keys_foldl_edgeStep (trig : ℚ → ℚ × ℚ) (el1 : LayoutElement) :
    ∀ (lst : List LayoutElement) (adj : Adj),
      ((lst.foldl (edgeStep trig el1) adj).map Prod.fst) = adj.map Prod.fst := by
  intro lst
  induction lst with
  | nil => intro adj; rfl
  | cons el2 lst ih =>
    intro adj
    simp only [List.foldl_cons]
    rw [ih, keys_edgeStep]

set_option maxHeartbeats 1600000 in
theorem mem_lookup_foldl_edgeStep (trig : ℚ → ℚ × ℚ) (el1 : LayoutElement) :
    ∀ (lst : List LayoutElement) (adj : Adj) (u y : String),
      y ∈ lookupAdj (lst.foldl (edgeStep trig el1) adj) u ↔
        y ∈ lookupAdj adj u ∨
          ∃ el2 ∈ lst,
            (strLt el1.id el2.id &&
              isPolygonsIntersecting (getCorners trig el1) (getCorners trig el2)) = true ∧
            ((u = el1.id ∧ y = el2.id ∧ el1.id ∈ adj.map Prod.fst) ∨
              (u = el2.id ∧ y = el1.id ∧ el2.id ∈ adj.map Prod.fst)) := by
  intro lst
  induction lst with
  | nil => intro adj u y; simp
  | cons el2 lst ih =>
    intro adj u y
    simp only [List.foldl_cons]
    rw [ih]
    simp only [keys_edgeStep trig el1 adj el2, List.exists_mem_cons_iff]
    by_cases hc : (strLt el1.id el2.id &&
        isPolygonsIntersecting (getCorners trig el1) (getCorners trig el2)) = true
    · have hlook : y ∈ lookupAdj (edgeStep trig el1 adj el2) u ↔
          y ∈ lookupAdj adj u ∨ (u = el1.id ∧ y = el2.id ∧ el1.id ∈ adj.map Prod.fst) ∨
            (u = el2.id ∧ y = el1.id ∧ el2.id ∈ adj.map Prod.fst) := by
        unfold edgeStep
        rw [if_pos hc, mem_lookupAdj_pushAdj, mem_lookupAdj_pushAdj, keys_pushAdj]
        constructor
        · rintro ((h | ⟨h1, h2, h3⟩) | ⟨h1, h2, h3⟩)
          · exact Or.inl h
          · exact Or.inr (Or.inl ⟨h1, h2, h1 ▸ h3⟩)
          · exact Or.inr (Or.inr ⟨h1, h2, h1 ▸ h3⟩)
        · rintro (h | ⟨h1, h2, h3⟩ | ⟨h1, h2, h3⟩)
          · exact Or.inl (Or.inl h)
          · exact Or.inl (Or.inr ⟨h1, h2, h1 ▸ h3⟩)
          · exact Or.inr ⟨h1, h2, h1 ▸ h3⟩
      rw [hlook]
      simp only [hc, true_and]
      aesop
    · have hstep : edgeStep trig el1 adj el2 = adj := by
        unfold edgeStep
        rw [if_neg hc]
      rw [hstep]
      simp only [hc, false_and]
      aesop

set_option maxHeartbeats 1600000 in
theorem mem_lookup_buildAdjAux (trig : ℚ → ℚ × ℚ) (els : List LayoutElement) :
    ∀ (iter : List LayoutElement) (adj : Adj) (u y : String),
      y ∈ lookupAdj (iter.foldl (fun adj el1 =>
          ((getPotentialCollisions 100 els el1).filter (fun e => isNavigable e.type)).foldl
            (edgeStep trig el1) adj) adj) u ↔
        y ∈ lookupAdj adj u ∨
          ∃ el1 ∈ iter,
            ∃ el2 ∈ (getPotentialCollisions 100 els el1).filter
                (fun e => isNavigable e.type),
              (strLt el1.id el2.id &&
                isPolygonsIntersecting (getCorners trig el1) (getCorners trig el2)) = true ∧
              ((u = el1.id ∧ y = el2.id ∧ el1.id ∈ adj.map Prod.fst) ∨
                (u = el2.id ∧ y = el1.id ∧ el2.id ∈ adj.map Prod.fst)) := by
  intro iter
  induction iter with
  | nil => intro adj u y; simp
  | cons el1 iter ih =>
    intro adj u y
    simp only [List.foldl_cons]
    rw [ih]
    simp only [keys_foldl_edgeStep, List.exists_mem_cons_iff]
    rw [mem_lookup_foldl_edgeStep]
    aesop

theorem mem_lookup_buildAdj (trig : ℚ → ℚ × ℚ) (els navs : List LayoutElement)
    (u y : String) :
    y ∈ lookupAdj (buildAdj trig els navs) u ↔
      ∃ el1 ∈ navs,
        ∃ el2 ∈ (getPotentialCollisions 100 els el1).filter (fun e => isNavigable e.type),
          (strLt el1.id el2.id &&
            isPolygonsIntersecting (getCorners trig el1) (getCorners trig el2)) = true ∧
          ((u = el1.id ∧ y = el2.id ∧ el1.id ∈ navs.map LayoutElement.id) ∨
            (u = el2.id ∧ y = el1.id ∧ el2.id ∈ navs.map LayoutElement.id)) := by
  unfold buildAdj
  rw [mem_lookup_buildAdjAux, lookupAdj_adjInit]
  simp only [List.not_mem_nil, false_or, keys_adjInit]

/-- The drivability edge relation of the connectivity graph, stated
through layout membership only: two distinct navigable elements sharing a
grid cell whose polygons intersect, in either id orientation. -/
def adjRel (trig : ℚ → ℚ × ℚ) (els : List LayoutElement) (u y : String) : Prop :=
  ∃ el1, el1 ∈ els ∧ isNavigable el1.type = true ∧
    ∃ el2, el2 ∈ els ∧ isNavigable el2.type = true ∧ el2.id ≠ el1.id ∧
      (∃ k, k ∈ getKeysForElement 100 el1 ∧ k ∈ getKeysForElement 100 el2) ∧
      (strLt el1.id el2.id &&
        isPolygonsIntersecting (getCorners trig el1) (getCorners trig el2)) = true ∧
      ((u = el1.id ∧ y = el2.id) ∨ (u = el2.id ∧ y = el1.id))

theorem adjRel_iff_mem_lookup (trig : ℚ → ℚ × ℚ) (els : List LayoutElement) (u y : String) :
    y ∈ lookupAdj (buildAdj trig els (els.filter (fun e => isNavigable e.type))) u ↔
      adjRel trig els u y := by
  rw [mem_lookup_buildAdj]
  constructor
  · rintro ⟨el1, h1, el2, h2, hc, hd⟩
    have h1f := List.mem_filter.mp h1
    have h2f := List.mem_filter.mp h2
    have hc2 := mem_getPotentialCollisions.mp h2f.1
    refine ⟨el1, h1f.1, h1f.2, el2, hc2.1, h2f.2, hc2.2.1, hc2.2.2, hc, ?_⟩
    rcases hd with ⟨hu, hy, -⟩ | ⟨hu, hy, -⟩
    · exact Or.inl ⟨hu, hy⟩
    · exact Or.inr ⟨hu, hy⟩
  · rintro ⟨el1, he1, hn1, el2, he2, hn2, hne, hkeys, hc, hd⟩
    refine ⟨el1, List.mem_filter.mpr ⟨he1, hn1⟩, el2,
      List.mem_filter.mpr ⟨mem_getPotentialCollisions.mpr ⟨he2, hne, hkeys⟩, hn2⟩, hc, ?_⟩
    rcases hd with ⟨hu, hy⟩ | ⟨hu, hy⟩
    · exact Or.inl ⟨hu, hy,
        List.mem_map_of_mem _ (List.mem_filter.mpr ⟨he1, hn1⟩)⟩
    · exact Or.inr ⟨hu, hy,
        List.mem_map_of_mem _ (List.mem_filter.mpr ⟨he2, hn2⟩)⟩

theorem adjRel_mono {els els' : List LayoutElement} (hperm : els.Perm els')
    {trig : ℚ → ℚ × ℚ} {u y : String} (h : adjRel trig els u y) : adjRel trig els' u y := by
  rcases h with ⟨el1, he1, hn1, el2, he2, hrest⟩
  refine ⟨el1, hperm.mem_iff.mp he1, hn1, el2, hperm.mem_iff.mp he2, ?_⟩
  have : (getPotentialCollisions 100 els el1) = (getPotentialCollisions 100 els el1) := rfl
  exact hrest

/-! ### The BFS loop -/

/-- Reachability along the stored adjacency lists. -/
def Reaches (adj : Adj) (u v : String) : Prop :=
  Relation.ReflTransGen (fun a b => b ∈ lookupAdj adj a) u v

theorem addNeighbors_visited_mono :
    ∀ (ns : List String) (visited queue : List String),
      visited ⊆ (addNeighbors visited queue ns).1 := by
  intro ns
  induction ns with
  | nil => intro visited queue x hx; exact hx
  | cons n ns ih =>
    intro visited queue x hx
    unfold addNeighbors
    split_ifs with hn
    · exact ih visited queue hx
    · exact ih (n :: visited) (queue ++ [n]) (List.mem_cons_of_mem _ hx)

theorem addNeighbors_visited_subset :
    ∀ (ns : List String) (visited queue : List String) (x : String),
      x ∈ (addNeighbors visited queue ns).1 → x ∈ visited ∨ x ∈ ns := by
  intro ns
  induction ns with
  | nil => intro visited queue x hx; exact Or.inl hx
  | cons n ns ih =>
    intro visited queue x hx
    unfold addNeighbors at hx
    split_ifs at hx with hn
    · rcases ih visited queue x hx with h | h
      · exact Or.inl h
      · exact Or.inr (List.mem_cons_of_mem _ h)
    · rcases ih (n :: visited) (queue ++ [n]) x hx with h | h
      · rcases List.mem_cons.mp h with rfl | h
        · exact Or.inr (List.mem_cons_self _ _)
        · exact Or.inl h
      · exact Or.inr (List.mem_cons_of_mem _ h)

theorem addNeighbors_mem_visited :
    ∀ (ns : List String) (visited queue : List String) (n : String),
      n ∈ ns → n ∈ (addNeighbors visited queue ns).1 := by
  intro ns
  induction ns with
  | nil => intro visited queue n hn; cases hn
  | cons m ns ih =>
    intro visited queue n hn
    unfold addNeighbors
    rcases List.mem_cons.mp hn with rfl | hn
    · split_ifs with hm
      · exact addNeighbors_visited_mono ns visited queue hm
      · exact addNeighbors_visited_mono ns _ _ (List.mem_cons_self _ _)
    · split_ifs with hm
      · exact ih visited queue n hn
      · exact ih (m :: visited) (queue ++ [m]) n hn

theorem addNeighbors_queue_subset :
    ∀ (ns : List String) (visited queue : List String) (x : String),
      x ∈ (addNeighbors visited queue ns).2 → x ∈ queue ∨ x ∈ ns := by
  intro ns
  induction ns with
  | nil => intro visited queue x hx; exact Or.inl hx
  | cons n ns ih =>
    intro visited queue x hx
    unfold addNeighbors at hx
    split_ifs at hx with hn
    · rcases ih visited queue x hx with h | h
      · exact Or.inl h
      · exact Or.inr (List.mem_cons_of_mem _ h)
    · rcases ih (n :: visited) (queue ++ [n]) x hx with h | h
      · rcases List.mem_append.mp h with h1 | h1
        · exact Or.inl h1
        · rcases List.mem_singleton.mp h1 with rfl
          exact Or.inr (List.mem_cons_self _ _)
      · exact Or.inr (List.mem_cons_of_mem _ h)

theorem addNeighbors_queue_mono :
    ∀ (ns : List String) (visited queue : List String),
      queue ⊆ (addNeighbors visited queue ns).2 := by
  intro ns
  induction ns with
  | nil => intro visited queue x hx; exact hx
  | cons n ns ih =>
    intro visited queue x hx
    unfold addNeighbors
    split_ifs with hn
    · exact ih visited queue hx
    · exact ih (n :: visited) (queue ++ [n]) (List.mem_append_left _ hx)

theorem addNeighbors_unvisited_mem_queue :
    ∀ (ns : List String) (visited queue : List String) (n : String),
      n ∈ ns → n ∉ visited → n ∈ (addNeighbors visited queue ns).2 := by
  intro ns
  induction ns with
  | nil => intro visited queue n hn; cases hn
  | cons m ns ih =>
    intro visited queue n hn hnv
    unfold addNeighbors
    rcases List.mem_cons.mp hn with rfl | hn
    · rw [if_neg hnv]
      exact addNeighbors_queue_mono ns _ _ (List.mem_append_right _ (List.mem_singleton_self _))
    · split_ifs with hm
      · exact ih visited queue n hn hnv
      · by_cases hnm : n = m
        · subst hnm
          exact addNeighbors_queue_mono ns _ _
            (List.mem_append_right _ (List.mem_singleton_self _))
        · exact ih (m :: visited) (queue ++ [m]) n hn (by simp [hnm, hnv])

theorem bfs_sound (adj : Adj) (els : List LayoutElement) (s : String) :
    ∀ visited queue, (∀ x ∈ queue, Reaches adj s x) →
      bfsFound adj els visited queue = true →
      ∃ t, Reaches adj s t ∧ isExitElem els t = true := by
  intro visited queue
  induction visited, queue using bfsFound.induct adj els with
  | case1 visited =>
    intro _ hfalse
    rw [bfsFound] at hfalse
    cases hfalse
  | case2 visited curr rest hexit =>
    intro hq _
    exact ⟨curr, hq curr (List.mem_cons_self _ _), hexit⟩
  | case3 visited curr rest hexit ih =>
    intro hq htrue
    rw [bfsFound, if_neg hexit] at htrue
    refine ih ?_ htrue
    intro x hx
    rcases addNeighbors_queue_subset _ _ _ x hx with h | h
    · exact hq x (List.mem_cons_of_mem _ h)
    · exact Relation.ReflTransGen.tail (hq curr (List.mem_cons_self _ _)) h

theorem bfs_complete (adj : Adj) (els : List LayoutElement) :
    ∀ visited queue,
      (∀ x ∈ queue, x ∈ visited) →
      (∀ v ∈ visited, v ∉ queue →
        isExitElem els v = false ∧ ∀ y ∈ lookupAdj adj v, y ∈ visited) →
      bfsFound adj els visited queue = false →
      ∀ x ∈ visited, ∀ t, Reaches adj x t → isExitElem els t = false := by
  intro visited queue
  induction visited, queue using bfsFound.induct adj els with
  | case1 visited =>
    intro _ hclosed _ x hx t hreach
    have hmem : t ∈ visited ∧ isExitElem els t = false := by
      induction hreach with
      | refl => exact ⟨hx, (hclosed x hx (List.not_mem_nil x)).1⟩
      | tail hab hbc ih2 =>
        have hb := ih2
        have hnext := (hclosed _ hb.1 (List.not_mem_nil _)).2 _ hbc
        exact ⟨hnext, (hclosed _ hnext (List.not_mem_nil _)).1⟩
    exact hmem.2
  | case2 visited curr rest hexit =>
    intro _ _ hfalse
    rw [bfsFound, if_pos hexit] at hfalse
    cases hfalse
  | case3 visited curr rest hexit ih =>
    intro hqv hclosed hfalse x hx t hreach
    rw [bfsFound, if_neg hexit] at hfalse
    have hInv1 : ∀ z ∈ (addNeighbors visited rest (lookupAdj adj curr)).2,
        z ∈ (addNeighbors visited rest (lookupAdj adj curr)).1 := by
      intro z hz
      rcases addNeighbors_queue_subset _ _ _ z hz with h | h
      · exact addNeighbors_visited_mono _ _ _ (hqv z (List.mem_cons_of_mem _ h))
      · exact addNeighbors_mem_visited _ _ _ z h
    have hInv2 : ∀ v ∈ (addNeighbors visited rest (lookupAdj adj curr)).1,
        v ∉ (addNeighbors visited rest (lookupAdj adj curr)).2 →
        isExitElem els v = false ∧
          ∀ y ∈ lookupAdj adj v, y ∈ (addNeighbors visited rest (lookupAdj adj curr)).1 := by
      intro v hv hvq
      by_cases hvv : v ∈ visited
      · by_cases hvc : v = curr
        · subst hvc
          refine ⟨by simpa using hexit, ?_⟩
          intro y hy
          exact addNeighbors_mem_visited _ _ _ y hy
        · have hvrest : v ∉ rest := fun hr => hvq (addNeighbors_queue_mono _ _ _ hr)
          have hvqueue : v ∉ curr :: rest := by
            intro hcr
            rcases List.mem_cons.mp hcr with h | h
            · exact hvc h
            · exact hvrest h
          rcases hclosed v hvv hvqueue with ⟨he, hcl⟩
          exact ⟨he, fun y hy => addNeighbors_visited_mono _ _ _ (hcl y hy)⟩
      · have hvn : v ∈ lookupAdj adj curr := by
          rcases addNeighbors_visited_subset _ _ _ v hv with h | h
          · exact absurd h hvv
          · exact h
        exact absurd (addNeighbors_unvisited_mem_queue _ _ _ v hvn hvv) hvq
    exact ih hInv1 hInv2 hfalse x (addNeighbors_visited_mono _ _ _ hx) t hreach

theorem bfsFound_iff_reachable (adj : Adj) (els : List LayoutElement) (s : String) :
    bfsFound adj els [s] [s] = true ↔
      ∃ t, Reaches adj s t ∧ isExitElem els t = true := by
  constructor
  · refine bfs_sound adj els s [s] [s] ?_
    intro x hx
    rcases List.mem_singleton.mp hx with rfl
    exact Relation.ReflTransGen.refl
  · rintro ⟨t, hreach, hexit⟩
    by_contra hfalse
    rw [Bool.not_eq_true] at hfalse
    have hnoexit := bfs_complete adj els [s] [s] (fun x hx => hx)
      (fun v hv hvq => absurd hv hvq) hfalse s (List.mem_singleton_self _) t hreach
    rw [hnoexit] at hexit
    cases hexit

theorem isExitElem_eq_true_iff (els : List LayoutElement)
    (hnd : (els.map LayoutElement.id).Nodup) (i : String) :
    isExitElem els i = true ↔
      ∃ el, el ∈ els ∧ el.id = i ∧ el.type = ElementType.EXIT := by
  constructor
  · intro h
    unfold isExitElem at h
    rcases hfind : els.find? (fun e => e.id = i) with _ | e
    · rw [hfind] at h
      cases h
    · rw [hfind] at h
      have he := List.mem_of_find?_eq_some hfind
      have hid := List.find?_some hfind
      exact ⟨e, he, by simpa using hid, by simpa using h⟩
  · rintro ⟨el, hel, hid, hty⟩
    unfold isExitElem
    rcases hfind : els.find? (fun e => e.id = i) with _ | e
    · rw [List.find?_eq_none] at hfind
      exact absurd hid (by simpa using hfind el hel)
    · have he := List.mem_of_find?_eq_some hfind
      have hid2 : e.id = i := by simpa using List.find?_some hfind
      have hee : e = el := List.inj_on_of_nodup_map hnd he hel (by rw [hid2, hid])
      rw [hfind]
      simp [hee, hty]

theorem isExitElem_congr {els els' : List LayoutElement} (hperm : List.Perm els els')
    (hnd : (els.map LayoutElement.id).Nodup) (i : String) :
    isExitElem els i = isExitElem els' i := by
  have hnd' : (els'.map LayoutElement.id).Nodup := ((hperm.map _).nodup_iff).mp hnd
  apply bool_eq_of_iff
  rw [isExitElem_eq_true_iff els hnd, isExitElem_eq_true_iff els' hnd']
  constructor
  · rintro ⟨el, hel, hrest⟩
    exact ⟨el, hperm.mem_iff.mp hel, hrest⟩
  · rintro ⟨el, hel, hrest⟩
    exact ⟨el, hperm.mem_iff.mpr hel, hrest⟩

theorem reaches_congr {adj adj' : Adj}
    (h : ∀ u y, y ∈ lookupAdj adj u ↔ y ∈ lookupAdj adj' u) {a b : String} :
    Reaches adj a b ↔ Reaches adj' a b :=
  ⟨Relation.ReflTransGen.mono (fun u y hy => (h u y).mp hy),
   Relation.ReflTransGen.mono (fun u y hy => (h u y).mpr hy)⟩

theorem bfsFound_graph_congr {els els' : List LayoutElement} (hperm : List.Perm els els')
    (hnd : (els.map LayoutElement.id).Nodup) (trig : ℚ → ℚ × ℚ) (s : String) :
    bfsFound (buildAdj trig els (els.filter (fun e => isNavigable e.type))) els [s] [s] =
      bfsFound (buildAdj trig els' (els'.filter (fun e => isNavigable e.type))) els' [s] [s] := by
  have hlook : ∀ u y,
      y ∈ lookupAdj (buildAdj trig els (els.filter (fun e => isNavigable e.type))) u ↔
        y ∈ lookupAdj (buildAdj trig els' (els'.filter (fun e => isNavigable e.type))) u := by
    intro u y
    rw [adjRel_iff_mem_lookup, adjRel_iff_mem_lookup]
    exact ⟨adjRel_mono hperm, adjRel_mono hperm.symm⟩
  apply bool_eq_of_iff
  rw [bfsFound_iff_reachable, bfsFound_iff_reachable]
  constructor
  · rintro ⟨t, hr, he⟩
    exact ⟨t, (reaches_congr hlook).mp hr, (isExitElem_congr hperm hnd t) ▸ he⟩
  · rintro ⟨t, hr, he⟩
    refine ⟨t, (reaches_congr hlook).mpr hr, ?_⟩
    rw [isExitElem_congr hperm hnd t]
    exact he

theorem graphPass_perm {els els' : List LayoutElement} (hperm : List.Perm els els')
    (hnd : (els.map LayoutElement.id).Nodup) (trig : ℚ → ℚ × ℚ) :
    List.Perm (graphPass trig els) (graphPass trig els') := by
  unfold graphPass
  dsimp only
  have hnav : (els'.filter (fun e => isNavigable e.type)).length =
      (els.filter (fun e => isNavigable e.type)).length :=
    ((hperm.filter _).length_eq).symm
  by_cases hpos : (els.filter (fun e => isNavigable e.type)).length > 0
  · rw [if_pos hpos, if_pos (by rwa [hnav])]
    have hentr := hperm.filter (fun e => decide (e.type = ElementType.ENTRANCE))
    refine (hentr.filterMap _).trans ?_
    rw [List.filterMap_congr ?_]
    intro ent _
    rw [bfsFound_graph_congr hperm hnd trig ent.id,
      (hperm.filter (fun e => decide (e.type = ElementType.EXIT))).length_eq]
  · rw [if_neg hpos, if_neg (by rwa [hnav])]

/-- C9: input-order irrelevance. For a layout whose element ids are
unique, permuting the stored elements collection permutes nothing
observable: `validateLayout` returns the same multiset of violations
(stated as `List.Perm` of the violation lists), for every plane size and
every trigonometry valuation. -/
theorem claim_C9_permutation (trig : ℚ → ℚ × ℚ) (W H : ℚ)
    (els els' : List LayoutElement)
    (hnd : (els.map LayoutElement.id).Nodup)
    (hperm : els.Perm els') :
    (validateLayout trig (some ⟨W, H, some els⟩)).Perm
      (validateLayout trig (some ⟨W, H, some els'⟩)) := by
  show (validateElements trig W H els).Perm (validateElements trig W H els')
  unfold validateElements
  have hg : (globalPass els).Perm (globalPass els') := by
    rw [globalPass_congr hperm]
  exact ((((((boundsPass_perm hperm trig W H).append
    (overlapPass_perm hperm hnd trig)).append
    (placementPass_perm hperm trig)).append
    (gatePass_perm hperm trig)).append
    (rampPass_perm hperm trig)).append
    (graphPass_perm hperm hnd trig)).append hg

/-- Witness for C9: a concrete two-element layout and its swap give
permutation-equal violation lists. -/
theorem claim_C9_witness :
    (validateLayout rightAngleTrig (some ⟨300, 300, some [pillarA, insideWall]⟩)).Perm
      (validateLayout rightAngleTrig (some ⟨300, 300, some [insideWall, pillarA]⟩)) :=
  claim_C9_permutation rightAngleTrig 300 300 [pillarA, insideWall] [insideWall, pillarA]
    (by decide) (List.Perm.swap insideWall pillarA [])
